import Mathlib

set_option maxHeartbeats 1000000

/- Verification development for the modassembly/ralph-cc-mcp repository.
   The two servers (apollo-mcp-server/server.py and
   google-sheets-mcp-server/server.py) are shallowly embedded below:
   Python dicts become association lists with Python dict semantics
   (update-in-place keeps position, new keys append), JSON values become
   the inductive `Value`, exceptions become `Except`, and the HTTP
   transport becomes an explicit parameter carrying either a parsed
   response or a non-success error. -/

/-- JSON-shaped values as exchanged between the tools and the providers. -/
inductive Value where
  | null
  | str (s : String)
  | intV (n : Int)
  | boolV (b : Bool)
  | listStr (l : List String)
  | arr (l : List Value)
  | obj (o : List (String × Value))

/-- A Python dict with string keys, in insertion order. -/
abbrev JObj := List (String × Value)

/-- Python `k in d` for a dict. -/
def containsKey (o : JObj) (k : String) : Bool :=
  o.any (fun e => e.1 = k)

/-- Python `d[k]` read (first matching key; keys are unique in real dicts). -/
def lookupKey : JObj → String → Option Value
  | [], _ => none
  | (k', v) :: rest, k => if k' = k then some v else lookupKey rest k

/-- Python `d[k] = v`: replace in place if the key exists, else append. -/
def setKey : JObj → String → Value → JObj
  | [], k, v => [(k, v)]
  | (k', v') :: rest, k, v =>
      if k' = k then (k', v) :: rest else (k', v') :: setKey rest k v

/-- Keys of a dict, in order. -/
def keysOf (o : JObj) : List String := o.map Prod.fst

theorem lookupKey_setKey_self (o : JObj) (k : String) (v : Value) :
    lookupKey (setKey o k v) k = some v := by
  induction o with
  | nil => simp [setKey, lookupKey]
  | cons e rest ih =>
      by_cases h : e.1 = k
      · simp [setKey, h, lookupKey]
      · simp [setKey, h, lookupKey, ih]

theorem lookupKey_setKey_ne (o : JObj) (k k' : String) (v : Value) (h : k' ≠ k) :
    lookupKey (setKey o k v) k' = lookupKey o k' := by
  induction o with
  | nil => simp [setKey, lookupKey, Ne.symm h]
  | cons e rest ih =>
      by_cases he : e.1 = k
      · simp [setKey, he, lookupKey, Ne.symm h]
      · simp [setKey, he, lookupKey, ih]

theorem containsKey_eq_isSome_lookupKey (o : JObj) (k : String) :
    containsKey o k = (lookupKey o k).isSome := by
  induction o with
  | nil => simp [containsKey, lookupKey]
  | cons e rest ih =>
      by_cases h : e.1 = k
      · simp [containsKey, lookupKey, h]
      · simp [containsKey, lookupKey, h, ← ih]

theorem mem_keysOf_iff_containsKey (o : JObj) (k : String) :
    k ∈ keysOf o ↔ containsKey o k = true := by
  induction o with
  | nil => simp [keysOf, containsKey]
  | cons e rest ih =>
      by_cases h : e.1 = k
      · simp [keysOf, containsKey, h]
      · simp [keysOf, containsKey, h, ← ih, keysOf]
        intro hk
        exact absurd hk.symm h

theorem keysOf_cons (e : String × Value) (l : JObj) :
    keysOf (e :: l) = e.1 :: keysOf l := rfl

theorem containsKey_cons (e : String × Value) (l : JObj) (k : String) :
    containsKey (e :: l) k = (decide (e.1 = k) || containsKey l k) := rfl

theorem keysOf_setKey (o : JObj) (k : String) (v : Value) :
    keysOf (setKey o k v) =
      if containsKey o k then keysOf o else keysOf o ++ [k] := by
  induction o with
  | nil => simp [setKey, keysOf, containsKey]
  | cons e rest ih =>
      by_cases h : e.1 = k
      · simp [setKey, h, keysOf_cons, containsKey_cons]
      · simp only [setKey, if_neg h, keysOf_cons, containsKey_cons, ih]
        by_cases hc : containsKey rest k
        · simp [hc, h]
        · simp [hc, h]

theorem mem_keysOf_setKey (o : JObj) (k k' : String) (v : Value) :
    k' ∈ keysOf (setKey o k v) ↔ k' = k ∨ k' ∈ keysOf o := by
  rw [keysOf_setKey]
  by_cases hc : containsKey o k
  · simp [hc]
    intro h
    rw [h, mem_keysOf_iff_containsKey]
    exact hc
  · simp [hc]
    tauto

/-- Check whether the needle list is an initial segment of the haystack list
(used to model Python string operations on the character level). -/
def prefCh : List Char → List Char → Bool
  | [], _ => true
  | _ :: _, [] => false
  | a :: as, b :: bs => a == b && prefCh as bs

/-- Python substring test `needle in haystack` on the character level. -/
def subCh : List Char → List Char → Bool
  | n, [] => n.isEmpty
  | n, c :: hs => prefCh n (c :: hs) || subCh n hs

/-- Python `s.startswith(p)`. -/
def pyStartsWith (s p : String) : Bool := prefCh p.data s.data

/-- Python `needle in haystack` for strings. -/
def pyIn (needle hay : String) : Bool := subCh needle.data hay.data

/-- Python `s.lower()` (per-character, as for the ASCII data in scope). -/
def lowerStr (s : String) : String := ⟨s.data.map Char.toLower⟩

/-- Split a character list at its first dot: `some (before, after)` when a
dot occurs, `none` otherwise. -/
def splitFirstDot : List Char → Option (List Char × List Char)
  | [] => none
  | c :: cs =>
      if c = '.' then some ([], cs)
      else
        match splitFirstDot cs with
        | some (a, b) => some (c :: a, b)
        | none => none

/-- Python `field.split(".", 1)` restricted to fields containing a dot:
`some (parent, child)` when `"." in field`, `none` otherwise. -/
def parentChild (f : String) : Option (String × String) :=
  match splitFirstDot f.data with
  | some (a, b) => some (⟨a⟩, ⟨b⟩)
  | none => none

/-- The nested write `filtered[parent][child] = v` of the projection loops
(guarded in the source so that `filtered[parent]` is always a dict there;
any other shape is left unchanged). -/
def setChild (acc : JObj) (parent child : String) (v : Value) : JObj :=
  match lookupKey acc parent with
  | some (.obj po) => setKey acc parent (.obj (setKey po child v))
  | _ => acc

/-- The top-level branch of the projection loops:
`if field in person: filtered[field] = person[field]`. -/
def topAdd (person acc : JObj) (field : String) : JObj :=
  match lookupKey person field with
  | some v => setKey acc field v
  | none => acc

/-- The nested branch of the projection loops in `search_people` and
`enrich_person` (apollo-mcp-server/server.py lines 199-205 and 314-320):
when the parent key is present and not None, ensure the parent entry
exists (initialised empty), and copy the child only when the source parent
is a dict containing the child. -/
def nestedAdd (person acc : JObj) (parent child : String) : JObj :=
  match lookupKey person parent with
  | none => acc
  | some .null => acc
  | some pv =>
      let acc1 := if containsKey acc parent then acc else setKey acc parent (.obj [])
      match pv with
      | .obj po =>
          match lookupKey po child with
          | some cv => setChild acc1 parent child cv
          | none => acc1
      | _ => acc1

/-- One iteration of the per-field projection loop. -/
def projStep (person acc : JObj) (field : String) : JObj :=
  match parentChild field with
  | some (parent, child) => nestedAdd person acc parent child
  | none => topAdd person acc field

/-- The per-field projection loop of `search_people` (and the identical
loop of `enrich_person`): fold the requested fields over an empty result. -/
def projFields (person : JObj) (fields : List String) : JObj :=
  fields.foldl (projStep person) []

/-- The array fields `enrich_person` always copies when present. -/
def alwaysIncludeArrays : List String :=
  ["employment_history", "contact_emails", "phone_numbers"]

/-- The trailing fallback of `enrich_person` (lines 332-337): when some
requested field starts with the given dotted prefix string and the source
has the key but the result does not, copy the source value whole. -/
def fallbackAdd (person acc : JObj) (fields : List String) (pfx key : String) : JObj :=
  if fields.any (fun f => pyStartsWith f pfx) then
    if containsKey person key && !containsKey acc key then
      match lookupKey person key with
      | some v => setKey acc key v
      | none => acc
    else acc
  else acc

/-- The whole `enrich_person` projection (lines 302-337): the per-field
loop, then the always-included arrays, then the contact and organization
fallbacks. -/
def enrichProj (person : JObj) (fields : List String) : JObj :=
  let base := projFields person fields
  let withArrays := alwaysIncludeArrays.foldl (topAdd person) base
  let withContact := fallbackAdd person withArrays fields "contact." "contact"
  fallbackAdd person withContact fields "organization." "organization"

/-- The flat projection of `search_companies` (lines 518-520): top-level
fields only. -/
def orgProj (org : JObj) (fields : List String) : JObj :=
  fields.foldl (topAdd org) []

/-- Optional payload entry for a string-list parameter: present only when
the parameter is not None. -/
def optEntryL (k : String) : Option (List String) → JObj
  | none => []
  | some l => [(k, .listStr l)]

/-- Optional payload entry for a string parameter. -/
def optEntryS (k : String) : Option String → JObj
  | none => []
  | some s => [(k, .str s)]

/-- Optional payload entry for a boolean parameter. -/
def optEntryB (k : String) : Option Bool → JObj
  | none => []
  | some b => [(k, .boolV b)]

/-- Optional payload entry for an integer parameter. -/
def optEntryI (k : String) : Option Int → JObj
  | none => []
  | some n => [(k, .intV n)]

/-- Range-group entry over integer min/max parameters: the group object is
created when either constituent is present and holds only the present
constituents (mirrors the `if min is not None or max is not None` blocks). -/
def grpEntryI (k : String) (o1 o2 : Option Int) : JObj :=
  if o1.isSome || o2.isSome then
    [(k, .obj (optEntryI "min" o1 ++ optEntryI "max" o2))]
  else []

/-- Range-group entry over string min/max parameters (date ranges). -/
def grpEntryS (k : String) (o1 o2 : Option String) : JObj :=
  if o1.isSome || o2.isSome then
    [(k, .obj (optEntryS "min" o1 ++ optEntryS "max" o2))]
  else []

/-- The named parameters of the `search_people` tool that flow into the
request payload (apollo-mcp-server/server.py lines 38-67). -/
structure SPParams where
  person_titles : Option (List String)
  include_similar_titles : Option Bool
  q_keywords : Option String
  person_locations : Option (List String)
  person_seniorities : Option (List String)
  organization_locations : Option (List String)
  q_organization_domains_list : Option (List String)
  contact_email_status : Option (List String)
  organization_ids : Option (List String)
  organization_num_employees_ranges : Option (List String)
  revenue_range_min : Option Int
  revenue_range_max : Option Int
  currently_using_all_of_technology_uids : Option (List String)
  currently_using_any_of_technology_uids : Option (List String)
  currently_not_using_any_of_technology_uids : Option (List String)
  q_organization_job_titles : Option (List String)
  organization_job_locations : Option (List String)
  organization_num_jobs_range_min : Option Int
  organization_num_jobs_range_max : Option Int
  organization_job_posted_at_range_min : Option String
  organization_job_posted_at_range_max : Option String
  page : Int
  per_page : Int

/-- The payload assembled by `search_people` (lines 103-176): page and the
clamped per_page unconditionally, every other key only when its parameter
is present, range pairs grouped into nested objects. -/
def searchPeoplePayload (p : SPParams) : JObj :=
  [("page", .intV p.page), ("per_page", .intV (min p.per_page 100))]
  ++ optEntryL "person_titles" p.person_titles
  ++ optEntryB "include_similar_titles" p.include_similar_titles
  ++ optEntryS "q_keywords" p.q_keywords
  ++ optEntryL "person_locations" p.person_locations
  ++ optEntryL "person_seniorities" p.person_seniorities
  ++ optEntryL "organization_locations" p.organization_locations
  ++ optEntryL "q_organization_domains_list" p.q_organization_domains_list
  ++ optEntryL "contact_email_status" p.contact_email_status
  ++ optEntryL "organization_ids" p.organization_ids
  ++ optEntryL "organization_num_employees_ranges" p.organization_num_employees_ranges
  ++ grpEntryI "revenue_range" p.revenue_range_min p.revenue_range_max
  ++ optEntryL "currently_using_all_of_technology_uids" p.currently_using_all_of_technology_uids
  ++ optEntryL "currently_using_any_of_technology_uids" p.currently_using_any_of_technology_uids
  ++ optEntryL "currently_not_using_any_of_technology_uids" p.currently_not_using_any_of_technology_uids
  ++ optEntryL "q_organization_job_titles" p.q_organization_job_titles
  ++ optEntryL "organization_job_locations" p.organization_job_locations
  ++ grpEntryI "organization_num_jobs_range" p.organization_num_jobs_range_min p.organization_num_jobs_range_max
  ++ grpEntryS "organization_job_posted_at_range" p.organization_job_posted_at_range_min p.organization_job_posted_at_range_max

/-- The named parameters of the `search_companies` tool that flow into the
request payload (lines 345-373). -/
structure SCParams where
  q_organization_domains_list : Option (List String)
  organization_num_employees_ranges : Option (List String)
  organization_locations : Option (List String)
  organization_not_locations : Option (List String)
  revenue_range_min : Option Int
  revenue_range_max : Option Int
  currently_using_any_of_technology_uids : Option (List String)
  q_organization_keyword_tags : Option (List String)
  q_organization_name : Option String
  organization_ids : Option (List String)
  latest_funding_amount_range_min : Option Int
  latest_funding_amount_range_max : Option Int
  total_funding_range_min : Option Int
  total_funding_range_max : Option Int
  latest_funding_date_range_min : Option String
  latest_funding_date_range_max : Option String
  q_organization_job_titles : Option (List String)
  organization_job_locations : Option (List String)
  organization_num_jobs_range_min : Option Int
  organization_num_jobs_range_max : Option Int
  organization_job_posted_at_range_min : Option String
  organization_job_posted_at_range_max : Option String
  page : Int
  per_page : Int

/-- The payload assembled by `search_companies` (lines 408-495). -/
def searchCompaniesPayload (q : SCParams) : JObj :=
  [("page", .intV q.page), ("per_page", .intV (min q.per_page 100))]
  ++ optEntryL "q_organization_domains_list" q.q_organization_domains_list
  ++ optEntryL "organization_num_employees_ranges" q.organization_num_employees_ranges
  ++ optEntryL "organization_locations" q.organization_locations
  ++ optEntryL "organization_not_locations" q.organization_not_locations
  ++ grpEntryI "revenue_range" q.revenue_range_min q.revenue_range_max
  ++ optEntryL "currently_using_any_of_technology_uids" q.currently_using_any_of_technology_uids
  ++ optEntryL "q_organization_keyword_tags" q.q_organization_keyword_tags
  ++ optEntryS "q_organization_name" q.q_organization_name
  ++ optEntryL "organization_ids" q.organization_ids
  ++ grpEntryI "latest_funding_amount_range" q.latest_funding_amount_range_min q.latest_funding_amount_range_max
  ++ grpEntryI "total_funding_range" q.total_funding_range_min q.total_funding_range_max
  ++ grpEntryS "latest_funding_date_range" q.latest_funding_date_range_min q.latest_funding_date_range_max
  ++ optEntryL "q_organization_job_titles" q.q_organization_job_titles
  ++ optEntryL "organization_job_locations" q.organization_job_locations
  ++ grpEntryI "organization_num_jobs_range" q.organization_num_jobs_range_min q.organization_num_jobs_range_max
  ++ grpEntryS "organization_job_posted_at_range" q.organization_job_posted_at_range_min q.organization_job_posted_at_range_max

/-- Outcome of the HTTP transport call, as seen from inside a tool after
the request is issued: either a parsed response payload or a non-success
(provider) error carrying a human-readable reason. -/
inductive TRes (α : Type) where
  | success (data : α)
  | httpError (reason : String)

/-- Python exceptions that can escape or be raised inside the tool bodies. -/
inductive PyErr where
  | httpStatus (reason : String)
  | typeErr
  | indexErr
deriving DecidableEq

/-- Python `data.get(k, [])` specialised to list-valued keys. -/
def getArr (data : JObj) (k : String) : List Value :=
  match lookupKey data k with
  | some (.arr l) => l
  | _ => []

/-- View a JSON value as a dict (the tools only reach this on dict-shaped
provider data). -/
def asObj : Value → JObj
  | .obj o => o
  | _ => []

/-- The `search_people` tool from the transport call on: `raise_for_status`
is not wrapped in any handler (lines 178-219), so a transport error escapes
the tool as an exception (modelled as `Except.error`); on success the
response is projected and wrapped. -/
def searchPeopleTool (fields : List String) (t : TRes JObj) : Except PyErr JObj :=
  match t with
  | .httpError reason => .error (.httpStatus reason)
  | .success data =>
      let people := getArr data "people"
      let filtered := people.map (fun pv => Value.obj (projFields (asObj pv) fields))
      .ok [("total_entries", (lookupKey data "total_entries").getD (.obj [])),
           ("people", .arr filtered)]

/-- The `enrich_person` tool from the transport call on (lines 289-341):
again no handler around `raise_for_status`. -/
def enrichPersonTool (fields : List String) (t : TRes JObj) : Except PyErr JObj :=
  match t with
  | .httpError reason => .error (.httpStatus reason)
  | .success data =>
      let person := match lookupKey data "person" with
        | some v => asObj v
        | none => []
      .ok [("person", .obj (enrichProj person fields))]

/-- The `search_companies` tool from the transport call on (lines 497-530):
again no handler around `raise_for_status`. -/
def searchCompaniesTool (fields : List String) (t : TRes JObj) : Except PyErr JObj :=
  match t with
  | .httpError reason => .error (.httpStatus reason)
  | .success data =>
      let orgs := getArr data "organizations"
      let filtered := orgs.map (fun ov => Value.obj (orgProj (asObj ov) fields))
      .ok [("pagination", (lookupKey data "pagination").getD (.obj [])),
           ("organizations", .arr filtered)]

/-- The error object the google-sheets tools return for a caught provider
error: `{"error": f"Google API error: {e.reason}"}`. -/
def sheetsErrObj (reason : String) : Value :=
  .obj [("error", .str ("Google API error: " ++ reason))]

/-- The `spreadsheets_get` tool (google-sheets-mcp-server/server.py lines
106-131): the whole body is wrapped in `try ... except HttpError`, which
converts a provider error into a returned error object. -/
def sheetsGetTool (t : TRes Value) : Except PyErr Value :=
  match t with
  | .success data => .ok data
  | .httpError reason => .ok (sheetsErrObj reason)

/-- A matched row of `spreadsheets_search`: 1-based position in the input
sequence plus the original row. -/
structure RowMatch where
  rowNumber : Nat
  rowData : List String
deriving DecidableEq

/-- Python list indexing `row[i]` including negative indices counted from
the end; out-of-range access raises IndexError. -/
def pyIndex (row : List String) (i : Int) : Except PyErr String :=
  if 0 ≤ i then
    match row.get? i.toNat with
    | some v => .ok v
    | none => .error .indexErr
  else if 0 ≤ (row.length : Int) + i then
    match row.get? ((row.length : Int) + i).toNat with
    | some v => .ok v
    | none => .error .indexErr
  else .error .indexErr

/-- Python `ord(column.upper()) - ord("A")` (lines 404-407): `ord` demands
a single character and raises TypeError otherwise. -/
def colOrd (column : String) : Except PyErr Int :=
  match column.data.map Char.toUpper with
  | [c] => .ok ((c.toNat : Int) - 65)
  | _ => .error .typeErr

/-- The row loop of `spreadsheets_search` (lines 409-424): with a column
index, a row is examined only when `col_index < len(row)` and the cell read
may raise; without one, the space-joined row text is searched. `i` is the
1-based number of the first row of the remaining list. -/
def searchLoop (ci : Option Int) (search : String) (caseSensitive : Bool) :
    Nat → List (List String) → Except PyErr (List RowMatch)
  | _, [] => .ok []
  | i, row :: rest =>
      match ci with
      | some c =>
          if c < (row.length : Int) then
            match pyIndex row c with
            | .error e => .error e
            | .ok cell =>
                let cv := if caseSensitive then cell else lowerStr cell
                match searchLoop ci search caseSensitive (i + 1) rest with
                | .error e => .error e
                | .ok ms =>
                    .ok (if pyIn search cv then ⟨i, row⟩ :: ms else ms)
          else
            searchLoop ci search caseSensitive (i + 1) rest
      | none =>
          let rowText := String.intercalate " " row
          let rt := if caseSensitive then rowText else lowerStr rowText
          match searchLoop ci search caseSensitive (i + 1) rest with
          | .error e => .error e
          | .ok ms =>
              .ok (if pyIn search rt then ⟨i, row⟩ :: ms else ms)

/-- The row-search matching logic of `spreadsheets_search` (lines 399-426):
lower the term unless case-sensitive, derive the column index when a column
selector is given (this may raise), scan the rows, and return the matches
with their count. -/
def spreadsheetsSearchCore (values : List (List String)) (searchTerm : String)
    (column : Option String) (caseSensitive : Bool) :
    Except PyErr (List RowMatch × Nat) :=
  let search := if caseSensitive then searchTerm else lowerStr searchTerm
  match column with
  | none =>
      match searchLoop none search caseSensitive 1 values with
      | .ok ms => .ok (ms, ms.length)
      | .error e => .error e
  | some col =>
      match colOrd col with
      | .error e => .error e
      | .ok ci =>
          match searchLoop (some ci) search caseSensitive 1 values with
          | .ok ms => .ok (ms, ms.length)
          | .error e => .error e

/-- The `spreadsheets_search` tool from the transport call on: only
`HttpError` is caught (lines 430-433), so a TypeError or IndexError from
the row scan escapes the tool. -/
def sheetsSearchTool (t : TRes (List (List String))) (searchTerm : String)
    (column : Option String) (caseSensitive : Bool) : Except PyErr Value :=
  match t with
  | .httpError reason => .ok (sheetsErrObj reason)
  | .success values =>
      match spreadsheetsSearchCore values searchTerm column caseSensitive with
      | .ok (ms, n) =>
          .ok (.obj [("matches",
                 .arr (ms.map (fun m => .obj [("row_number", .intV m.rowNumber),
                                             ("data", .listStr m.rowData)]))),
               ("total_matches", .intV n)])
      | .error e => .error e

/-- A stored credential record, as the fields `get_credentials` reads:
`valid`, `expired`, and whether a refresh token is present. -/
structure CredState where
  valid : Bool
  expired : Bool
  refresh_token : Bool
deriving DecidableEq

/-- The environment `get_credentials` runs against: the outcome of loading
token.json (`none` when the file does not exist, `some (.error _)` when
loading raises), the outcome a refresh attempt would have, whether
client_secrets.json exists, and the outcome the interactive flow would
have. -/
structure AuthEnv where
  tokenLoad : Option (Except String CredState)
  refreshResult : Except String CredState
  secretsExist : Bool
  flowResult : Except String CredState

/-- The message of the FileNotFoundError raised when the interactive
fallback cannot run. -/
def secretsMissingMsg : String :=
  "OAuth client secrets not found"

/-- The tail of `get_credentials` after the refresh decision: a still-set
record is saved and returned; an unset one falls to the interactive flow,
which is fatal when client_secrets.json is absent or the flow itself
fails. -/
def afterRefresh (env : AuthEnv) (creds1 : Option CredState) :
    Except String CredState :=
  match creds1 with
  | some c => .ok c
  | none =>
      if env.secretsExist then
        match env.flowResult with
        | .ok c => .ok c
        | .error e => .error e
      else .error secretsMissingMsg

/-- `get_credentials` (google-sheets-mcp-server/server.py lines 50-91):
load the stored record if possible; a valid record is used as-is; an
expired record with a refresh token is refreshed, a refresh failure
resetting the record to None; any remaining None runs the interactive
flow. -/
def getCredentials (env : AuthEnv) : Except String CredState :=
  let creds0 : Option CredState :=
    match env.tokenLoad with
    | some (.ok c) => some c
    | _ => none
  match creds0 with
  | some c =>
      if c.valid then .ok c
      else
        afterRefresh env
          (if c.expired && c.refresh_token then
            match env.refreshResult with
            | .ok c' => some c'
            | .error _ => none
          else some c)
  | none => afterRefresh env none

/-- `get_credentials` on an environment whose token file is absent. -/
def withNoToken (env : AuthEnv) : AuthEnv :=
  ⟨none, env.refreshResult, env.secretsExist, env.flowResult⟩

theorem keysOf_append (a b : JObj) : keysOf (a ++ b) = keysOf a ++ keysOf b :=
  List.map_append _ _ _

theorem lookupKey_append (a b : JObj) (k : String) :
    lookupKey (a ++ b) k =
      match lookupKey a k with
      | some v => some v
      | none => lookupKey b k := by
  induction a with
  | nil => simp [lookupKey]
  | cons e rest ih =>
      by_cases h : e.1 = k <;> simp [lookupKey, h, ih]

theorem not_mem_keysOf_iff_lookup_none (o : JObj) (k : String) :
    k ∉ keysOf o ↔ lookupKey o k = none := by
  rw [mem_keysOf_iff_containsKey, containsKey_eq_isSome_lookupKey]
  cases lookupKey o k <;> simp

theorem lookup_eq_none_of_not_containsKey (o : JObj) (k : String)
    (h : containsKey o k = false) : lookupKey o k = none := by
  rw [containsKey_eq_isSome_lookupKey] at h
  cases hl : lookupKey o k
  · rfl
  · rw [hl] at h
    simp at h

theorem keysOf_optEntryL (k : String) (o : Option (List String)) :
    keysOf (optEntryL k o) = if o.isSome then [k] else [] := by
  cases o <;> rfl

theorem keysOf_optEntryS (k : String) (o : Option String) :
    keysOf (optEntryS k o) = if o.isSome then [k] else [] := by
  cases o <;> rfl

theorem keysOf_optEntryB (k : String) (o : Option Bool) :
    keysOf (optEntryB k o) = if o.isSome then [k] else [] := by
  cases o <;> rfl

theorem keysOf_optEntryI (k : String) (o : Option Int) :
    keysOf (optEntryI k o) = if o.isSome then [k] else [] := by
  cases o <;> rfl

theorem keysOf_grpEntryI (k : String) (o1 o2 : Option Int) :
    keysOf (grpEntryI k o1 o2) = if o1.isSome || o2.isSome then [k] else [] := by
  cases h : (o1.isSome || o2.isSome) <;> simp [grpEntryI, h, keysOf]

theorem keysOf_grpEntryS (k : String) (o1 o2 : Option String) :
    keysOf (grpEntryS k o1 o2) = if o1.isSome || o2.isSome then [k] else [] := by
  cases h : (o1.isSome || o2.isSome) <;> simp [grpEntryS, h, keysOf]

theorem lookupKey_optEntryL_ne (k k' : String) (o : Option (List String))
    (h : ¬ k' = k) : lookupKey (optEntryL k' o) k = none := by
  cases o <;> simp [optEntryL, lookupKey, h]

theorem lookupKey_optEntryS_ne (k k' : String) (o : Option String)
    (h : ¬ k' = k) : lookupKey (optEntryS k' o) k = none := by
  cases o <;> simp [optEntryS, lookupKey, h]

theorem lookupKey_optEntryB_ne (k k' : String) (o : Option Bool)
    (h : ¬ k' = k) : lookupKey (optEntryB k' o) k = none := by
  cases o <;> simp [optEntryB, lookupKey, h]

theorem lookupKey_grpEntryI_ne (k k' : String) (o1 o2 : Option Int)
    (h : ¬ k' = k) : lookupKey (grpEntryI k' o1 o2) k = none := by
  cases hc : (o1.isSome || o2.isSome) <;> simp [grpEntryI, hc, lookupKey, h]

theorem lookupKey_grpEntryS_ne (k k' : String) (o1 o2 : Option String)
    (h : ¬ k' = k) : lookupKey (grpEntryS k' o1 o2) k = none := by
  cases hc : (o1.isSome || o2.isSome) <;> simp [grpEntryS, hc, lookupKey, h]

theorem lookupKey_grpEntryI_self (k : String) (o1 o2 : Option Int) :
    lookupKey (grpEntryI k o1 o2) k =
      if o1.isSome || o2.isSome then
        some (.obj (optEntryI "min" o1 ++ optEntryI "max" o2))
      else none := by
  cases hc : (o1.isSome || o2.isSome) <;> simp [grpEntryI, hc, lookupKey]

theorem lookupKey_grpEntryS_self (k : String) (o1 o2 : Option String) :
    lookupKey (grpEntryS k o1 o2) k =
      if o1.isSome || o2.isSome then
        some (.obj (optEntryS "min" o1 ++ optEntryS "max" o2))
      else none := by
  cases hc : (o1.isSome || o2.isSome) <;> simp [grpEntryS, hc, lookupKey]


theorem keysOf_nil : keysOf [] = [] := rfl

theorem mem_ite_singleton {x k : String} {c : Prop} [Decidable c] :
    x ∈ (if c then [k] else ([] : List String)) ↔ c ∧ x = k := by
  split <;> simp_all

theorem lookupKey_nil (k : String) : lookupKey [] k = none := rfl

theorem lookupKey_append_none (a b : JObj) (k : String) (h : lookupKey a k = none) :
    lookupKey (a ++ b) k = lookupKey b k := by
  rw [lookupKey_append, h]

theorem lookupKey_append_pair (k1 k2 k : String) (v1 v2 : Value) (b : JObj)
    (h1 : ¬ k1 = k) (h2 : ¬ k2 = k) :
    lookupKey ([(k1, v1), (k2, v2)] ++ b) k = lookupKey b k := by
  apply lookupKey_append_none
  simp [lookupKey, h1, h2]

theorem lookupKey_append_optL (k k' : String) (o : Option (List String)) (b : JObj)
    (h : ¬ k' = k) : lookupKey (optEntryL k' o ++ b) k = lookupKey b k :=
  lookupKey_append_none _ _ _ (lookupKey_optEntryL_ne _ _ _ h)

theorem lookupKey_append_optS (k k' : String) (o : Option String) (b : JObj)
    (h : ¬ k' = k) : lookupKey (optEntryS k' o ++ b) k = lookupKey b k :=
  lookupKey_append_none _ _ _ (lookupKey_optEntryS_ne _ _ _ h)

theorem lookupKey_append_optB (k k' : String) (o : Option Bool) (b : JObj)
    (h : ¬ k' = k) : lookupKey (optEntryB k' o ++ b) k = lookupKey b k :=
  lookupKey_append_none _ _ _ (lookupKey_optEntryB_ne _ _ _ h)

theorem lookupKey_append_grpI_ne (k k' : String) (o1 o2 : Option Int) (b : JObj)
    (h : ¬ k' = k) : lookupKey (grpEntryI k' o1 o2 ++ b) k = lookupKey b k :=
  lookupKey_append_none _ _ _ (lookupKey_grpEntryI_ne _ _ _ _ h)

theorem lookupKey_append_grpS_ne (k k' : String) (o1 o2 : Option String) (b : JObj)
    (h : ¬ k' = k) : lookupKey (grpEntryS k' o1 o2 ++ b) k = lookupKey b k :=
  lookupKey_append_none _ _ _ (lookupKey_grpEntryS_ne _ _ _ _ h)

theorem lookupKey_append_grpI (o1 o2 : Option Int) (b : JObj) (k : String) :
    lookupKey (grpEntryI k o1 o2 ++ b) k =
      if o1.isSome || o2.isSome then
        some (.obj (optEntryI "min" o1 ++ optEntryI "max" o2))
      else lookupKey b k := by
  rw [lookupKey_append, lookupKey_grpEntryI_self]
  cases hc : (o1.isSome || o2.isSome) <;> simp

theorem lookupKey_append_grpS (o1 o2 : Option String) (b : JObj) (k : String) :
    lookupKey (grpEntryS k o1 o2 ++ b) k =
      if o1.isSome || o2.isSome then
        some (.obj (optEntryS "min" o1 ++ optEntryS "max" o2))
      else lookupKey b k := by
  rw [lookupKey_append, lookupKey_grpEntryS_self]
  cases hc : (o1.isSome || o2.isSome) <;> simp

theorem lookup_sp_revenue (p : SPParams) :
    lookupKey (searchPeoplePayload p) "revenue_range" =
      if p.revenue_range_min.isSome || p.revenue_range_max.isSome then
        some (.obj (optEntryI "min" p.revenue_range_min
          ++ optEntryI "max" p.revenue_range_max))
      else none := by
  simp only [searchPeoplePayload, List.append_assoc, lookupKey_append_pair,
    lookupKey_append_optL, lookupKey_append_optS, lookupKey_append_optB,
    lookupKey_append_grpI_ne, lookupKey_append_grpS_ne,
    lookupKey_append_grpI, lookupKey_append_grpS, lookupKey_grpEntryI_self,
    lookupKey_grpEntryS_self, lookupKey_grpEntryI_ne, lookupKey_grpEntryS_ne,
    ne_eq, String.reduceEq, not_false_eq_true]

theorem lookup_sp_num_jobs (p : SPParams) :
    lookupKey (searchPeoplePayload p) "organization_num_jobs_range" =
      if p.organization_num_jobs_range_min.isSome
          || p.organization_num_jobs_range_max.isSome then
        some (.obj (optEntryI "min" p.organization_num_jobs_range_min
          ++ optEntryI "max" p.organization_num_jobs_range_max))
      else none := by
  simp only [searchPeoplePayload, List.append_assoc, lookupKey_append_pair,
    lookupKey_append_optL, lookupKey_append_optS, lookupKey_append_optB,
    lookupKey_append_grpI_ne, lookupKey_append_grpS_ne,
    lookupKey_append_grpI, lookupKey_append_grpS, lookupKey_grpEntryI_self,
    lookupKey_grpEntryS_self, lookupKey_grpEntryI_ne, lookupKey_grpEntryS_ne,
    ne_eq, String.reduceEq, not_false_eq_true]

theorem lookup_sp_posted_at (p : SPParams) :
    lookupKey (searchPeoplePayload p) "organization_job_posted_at_range" =
      if p.organization_job_posted_at_range_min.isSome
          || p.organization_job_posted_at_range_max.isSome then
        some (.obj (optEntryS "min" p.organization_job_posted_at_range_min
          ++ optEntryS "max" p.organization_job_posted_at_range_max))
      else none := by
  simp only [searchPeoplePayload, List.append_assoc, lookupKey_append_pair,
    lookupKey_append_optL, lookupKey_append_optS, lookupKey_append_optB,
    lookupKey_append_grpI_ne, lookupKey_append_grpS_ne,
    lookupKey_append_grpI, lookupKey_append_grpS, lookupKey_grpEntryI_self,
    lookupKey_grpEntryS_self, lookupKey_grpEntryI_ne, lookupKey_grpEntryS_ne,
    ne_eq, String.reduceEq, not_false_eq_true]

theorem lookup_sc_revenue (q : SCParams) :
    lookupKey (searchCompaniesPayload q) "revenue_range" =
      if q.revenue_range_min.isSome || q.revenue_range_max.isSome then
        some (.obj (optEntryI "min" q.revenue_range_min
          ++ optEntryI "max" q.revenue_range_max))
      else none := by
  simp only [searchCompaniesPayload, List.append_assoc, lookupKey_append_pair,
    lookupKey_append_optL, lookupKey_append_optS, lookupKey_append_optB,
    lookupKey_append_grpI_ne, lookupKey_append_grpS_ne,
    lookupKey_append_grpI, lookupKey_append_grpS, lookupKey_grpEntryI_self,
    lookupKey_grpEntryS_self, lookupKey_grpEntryI_ne, lookupKey_grpEntryS_ne,
    ne_eq, String.reduceEq, not_false_eq_true]

theorem lookup_sc_lf_amount (q : SCParams) :
    lookupKey (searchCompaniesPayload q) "latest_funding_amount_range" =
      if q.latest_funding_amount_range_min.isSome
          || q.latest_funding_amount_range_max.isSome then
        some (.obj (optEntryI "min" q.latest_funding_amount_range_min
          ++ optEntryI "max" q.latest_funding_amount_range_max))
      else none := by
  simp only [searchCompaniesPayload, List.append_assoc, lookupKey_append_pair,
    lookupKey_append_optL, lookupKey_append_optS, lookupKey_append_optB,
    lookupKey_append_grpI_ne, lookupKey_append_grpS_ne,
    lookupKey_append_grpI, lookupKey_append_grpS, lookupKey_grpEntryI_self,
    lookupKey_grpEntryS_self, lookupKey_grpEntryI_ne, lookupKey_grpEntryS_ne,
    ne_eq, String.reduceEq, not_false_eq_true]

theorem lookup_sc_total_funding (q : SCParams) :
    lookupKey (searchCompaniesPayload q) "total_funding_range" =
      if q.total_funding_range_min.isSome || q.total_funding_range_max.isSome then
        some (.obj (optEntryI "min" q.total_funding_range_min
          ++ optEntryI "max" q.total_funding_range_max))
      else none := by
  simp only [searchCompaniesPayload, List.append_assoc, lookupKey_append_pair,
    lookupKey_append_optL, lookupKey_append_optS, lookupKey_append_optB,
    lookupKey_append_grpI_ne, lookupKey_append_grpS_ne,
    lookupKey_append_grpI, lookupKey_append_grpS, lookupKey_grpEntryI_self,
    lookupKey_grpEntryS_self, lookupKey_grpEntryI_ne, lookupKey_grpEntryS_ne,
    ne_eq, String.reduceEq, not_false_eq_true]

theorem lookup_sc_lf_date (q : SCParams) :
    lookupKey (searchCompaniesPayload q) "latest_funding_date_range" =
      if q.latest_funding_date_range_min.isSome
          || q.latest_funding_date_range_max.isSome then
        some (.obj (optEntryS "min" q.latest_funding_date_range_min
          ++ optEntryS "max" q.latest_funding_date_range_max))
      else none := by
  simp only [searchCompaniesPayload, List.append_assoc, lookupKey_append_pair,
    lookupKey_append_optL, lookupKey_append_optS, lookupKey_append_optB,
    lookupKey_append_grpI_ne, lookupKey_append_grpS_ne,
    lookupKey_append_grpI, lookupKey_append_grpS, lookupKey_grpEntryI_self,
    lookupKey_grpEntryS_self, lookupKey_grpEntryI_ne, lookupKey_grpEntryS_ne,
    ne_eq, String.reduceEq, not_false_eq_true]

theorem lookup_sc_num_jobs (q : SCParams) :
    lookupKey (searchCompaniesPayload q) "organization_num_jobs_range" =
      if q.organization_num_jobs_range_min.isSome
          || q.organization_num_jobs_range_max.isSome then
        some (.obj (optEntryI "min" q.organization_num_jobs_range_min
          ++ optEntryI "max" q.organization_num_jobs_range_max))
      else none := by
  simp only [searchCompaniesPayload, List.append_assoc, lookupKey_append_pair,
    lookupKey_append_optL, lookupKey_append_optS, lookupKey_append_optB,
    lookupKey_append_grpI_ne, lookupKey_append_grpS_ne,
    lookupKey_append_grpI, lookupKey_append_grpS, lookupKey_grpEntryI_self,
    lookupKey_grpEntryS_self, lookupKey_grpEntryI_ne, lookupKey_grpEntryS_ne,
    ne_eq, String.reduceEq, not_false_eq_true]

theorem lookup_sc_posted_at (q : SCParams) :
    lookupKey (searchCompaniesPayload q) "organization_job_posted_at_range" =
      if q.organization_job_posted_at_range_min.isSome
          || q.organization_job_posted_at_range_max.isSome then
        some (.obj (optEntryS "min" q.organization_job_posted_at_range_min
          ++ optEntryS "max" q.organization_job_posted_at_range_max))
      else none := by
  simp only [searchCompaniesPayload, List.append_assoc, lookupKey_append_pair,
    lookupKey_append_optL, lookupKey_append_optS, lookupKey_append_optB,
    lookupKey_append_grpI_ne, lookupKey_append_grpS_ne,
    lookupKey_append_grpI, lookupKey_append_grpS, lookupKey_grpEntryI_self,
    lookupKey_grpEntryS_self, lookupKey_grpEntryI_ne, lookupKey_grpEntryS_ne,
    ne_eq, String.reduceEq, not_false_eq_true]

/-- The group-shaped payload obligations for one integer min/max pair: the
group key is absent when both constituents are absent, an absent
constituent never appears inside the group object, and with exactly one
constituent the group object holds exactly that one entry. -/
abbrev groupClausesI (payload : JObj) (gk : String) (o1 o2 : Option Int) : Prop :=
  (o1 = none → o2 = none → gk ∉ keysOf payload) ∧
  (o1 = none → ∀ l, lookupKey payload gk = some (.obj l) → "min" ∉ keysOf l) ∧
  (o2 = none → ∀ l, lookupKey payload gk = some (.obj l) → "max" ∉ keysOf l) ∧
  (∀ a, o1 = some a → o2 = none →
    lookupKey payload gk = some (.obj [("min", .intV a)])) ∧
  (∀ b, o1 = none → o2 = some b →
    lookupKey payload gk = some (.obj [("max", .intV b)]))

/-- As `groupClausesI`, for string-valued (date) min/max pairs. -/
abbrev groupClausesS (payload : JObj) (gk : String) (o1 o2 : Option String) : Prop :=
  (o1 = none → o2 = none → gk ∉ keysOf payload) ∧
  (o1 = none → ∀ l, lookupKey payload gk = some (.obj l) → "min" ∉ keysOf l) ∧
  (o2 = none → ∀ l, lookupKey payload gk = some (.obj l) → "max" ∉ keysOf l) ∧
  (∀ a, o1 = some a → o2 = none →
    lookupKey payload gk = some (.obj [("min", .str a)])) ∧
  (∀ b, o1 = none → o2 = some b →
    lookupKey payload gk = some (.obj [("max", .str b)]))

theorem groupClausesI_of_lookup (payload : JObj) (gk : String) (o1 o2 : Option Int)
    (h : lookupKey payload gk =
      if o1.isSome || o2.isSome then
        some (.obj (optEntryI "min" o1 ++ optEntryI "max" o2))
      else none) :
    groupClausesI payload gk o1 o2 := by
  refine ⟨?_, ?_, ?_, ?_, ?_⟩
  · intro h1 h2
    rw [not_mem_keysOf_iff_lookup_none, h, h1, h2]
    simp
  · intro h1 l hl
    rw [h, h1] at hl
    cases h2 : o2 with
    | none =>
        rw [h2] at hl
        simp at hl
    | some b =>
        rw [h2] at hl
        simp only [Option.isSome_none, Option.isSome_some, Bool.false_or,
          if_true, optEntryI, List.nil_append, Option.some.injEq,
          Value.obj.injEq] at hl
        rw [← hl]
        simp [keysOf]
  · intro h2 l hl
    rw [h, h2] at hl
    cases h1 : o1 with
    | none =>
        rw [h1] at hl
        simp at hl
    | some a =>
        rw [h1] at hl
        simp only [Option.isSome_none, Option.isSome_some, Bool.or_false,
          if_true, optEntryI, List.append_nil, Option.some.injEq,
          Value.obj.injEq] at hl
        rw [← hl]
        simp [keysOf]
  · intro a h1 h2
    rw [h, h1, h2]
    simp [optEntryI]
  · intro b h1 h2
    rw [h, h1, h2]
    simp [optEntryI]

theorem groupClausesS_of_lookup (payload : JObj) (gk : String) (o1 o2 : Option String)
    (h : lookupKey payload gk =
      if o1.isSome || o2.isSome then
        some (.obj (optEntryS "min" o1 ++ optEntryS "max" o2))
      else none) :
    groupClausesS payload gk o1 o2 := by
  refine ⟨?_, ?_, ?_, ?_, ?_⟩
  · intro h1 h2
    rw [not_mem_keysOf_iff_lookup_none, h, h1, h2]
    simp
  · intro h1 l hl
    rw [h, h1] at hl
    cases h2 : o2 with
    | none =>
        rw [h2] at hl
        simp at hl
    | some b =>
        rw [h2] at hl
        simp only [Option.isSome_none, Option.isSome_some, Bool.false_or,
          if_true, optEntryS, List.nil_append, Option.some.injEq,
          Value.obj.injEq] at hl
        rw [← hl]
        simp [keysOf]
  · intro h2 l hl
    rw [h, h2] at hl
    cases h1 : o1 with
    | none =>
        rw [h1] at hl
        simp at hl
    | some a =>
        rw [h1] at hl
        simp only [Option.isSome_none, Option.isSome_some, Bool.or_false,
          if_true, optEntryS, List.append_nil, Option.some.injEq,
          Value.obj.injEq] at hl
        rw [← hl]
        simp [keysOf]
  · intro a h1 h2
    rw [h, h1, h2]
    simp [optEntryS]
  · intro b h1 h2
    rw [h, h1, h2]
    simp [optEntryS]

/-- A `search_people` call with every optional parameter omitted, page 1,
and an oversized page size. -/
def spAllNone : SPParams :=
  ⟨none, none, none, none, none, none, none, none, none, none, none, none,
   none, none, none, none, none, none, none, none, none, 1, 250⟩

/-- A `search_companies` call with every optional parameter omitted, page 1,
and an oversized page size. -/
def scAllNone : SCParams :=
  ⟨none, none, none, none, none, none, none, none, none, none, none, none,
   none, none, none, none, none, none, none, none, none, none, 1, 250⟩

/-- C3: in `search_people` and `search_companies`, a parameter left unset
never appears as a key anywhere in the assembled payload, group keys are
absent when no constituent is present, an absent constituent is absent
from its group object, and a group built from exactly one constituent
holds exactly that one entry. -/
theorem payload_unset_params_absent :
    ∀ (p : SPParams) (q : SCParams),
      groupClausesI (searchPeoplePayload p) "revenue_range"
        p.revenue_range_min p.revenue_range_max ∧
      groupClausesI (searchPeoplePayload p) "organization_num_jobs_range"
        p.organization_num_jobs_range_min p.organization_num_jobs_range_max ∧
      groupClausesS (searchPeoplePayload p) "organization_job_posted_at_range"
        p.organization_job_posted_at_range_min p.organization_job_posted_at_range_max ∧
      groupClausesI (searchCompaniesPayload q) "revenue_range"
        q.revenue_range_min q.revenue_range_max ∧
      groupClausesI (searchCompaniesPayload q) "latest_funding_amount_range"
        q.latest_funding_amount_range_min q.latest_funding_amount_range_max ∧
      groupClausesI (searchCompaniesPayload q) "total_funding_range"
        q.total_funding_range_min q.total_funding_range_max ∧
      groupClausesS (searchCompaniesPayload q) "latest_funding_date_range"
        q.latest_funding_date_range_min q.latest_funding_date_range_max ∧
      groupClausesI (searchCompaniesPayload q) "organization_num_jobs_range"
        q.organization_num_jobs_range_min q.organization_num_jobs_range_max ∧
      groupClausesS (searchCompaniesPayload q) "organization_job_posted_at_range"
        q.organization_job_posted_at_range_min q.organization_job_posted_at_range_max ∧
      (p.person_titles = none →
        "person_titles" ∉ keysOf (searchPeoplePayload p)) ∧
      (p.include_similar_titles = none →
        "include_similar_titles" ∉ keysOf (searchPeoplePayload p)) ∧
      (p.q_keywords = none →
        "q_keywords" ∉ keysOf (searchPeoplePayload p)) ∧
      (p.person_locations = none →
        "person_locations" ∉ keysOf (searchPeoplePayload p)) ∧
      (p.person_seniorities = none →
        "person_seniorities" ∉ keysOf (searchPeoplePayload p)) ∧
      (p.organization_locations = none →
        "organization_locations" ∉ keysOf (searchPeoplePayload p)) ∧
      (p.q_organization_domains_list = none →
        "q_organization_domains_list" ∉ keysOf (searchPeoplePayload p)) ∧
      (p.contact_email_status = none →
        "contact_email_status" ∉ keysOf (searchPeoplePayload p)) ∧
      (p.organization_ids = none →
        "organization_ids" ∉ keysOf (searchPeoplePayload p)) ∧
      (p.organization_num_employees_ranges = none →
        "organization_num_employees_ranges" ∉ keysOf (searchPeoplePayload p)) ∧
      (p.currently_using_all_of_technology_uids = none →
        "currently_using_all_of_technology_uids" ∉ keysOf (searchPeoplePayload p)) ∧
      (p.currently_using_any_of_technology_uids = none →
        "currently_using_any_of_technology_uids" ∉ keysOf (searchPeoplePayload p)) ∧
      (p.currently_not_using_any_of_technology_uids = none →
        "currently_not_using_any_of_technology_uids" ∉ keysOf (searchPeoplePayload p)) ∧
      (p.q_organization_job_titles = none →
        "q_organization_job_titles" ∉ keysOf (searchPeoplePayload p)) ∧
      (p.organization_job_locations = none →
        "organization_job_locations" ∉ keysOf (searchPeoplePayload p)) ∧
      (q.q_organization_domains_list = none →
        "q_organization_domains_list" ∉ keysOf (searchCompaniesPayload q)) ∧
      (q.organization_num_employees_ranges = none →
        "organization_num_employees_ranges" ∉ keysOf (searchCompaniesPayload q)) ∧
      (q.organization_locations = none →
        "organization_locations" ∉ keysOf (searchCompaniesPayload q)) ∧
      (q.organization_not_locations = none →
        "organization_not_locations" ∉ keysOf (searchCompaniesPayload q)) ∧
      (q.currently_using_any_of_technology_uids = none →
        "currently_using_any_of_technology_uids" ∉ keysOf (searchCompaniesPayload q)) ∧
      (q.q_organization_keyword_tags = none →
        "q_organization_keyword_tags" ∉ keysOf (searchCompaniesPayload q)) ∧
      (q.q_organization_name = none →
        "q_organization_name" ∉ keysOf (searchCompaniesPayload q)) ∧
      (q.organization_ids = none →
        "organization_ids" ∉ keysOf (searchCompaniesPayload q)) ∧
      (q.q_organization_job_titles = none →
        "q_organization_job_titles" ∉ keysOf (searchCompaniesPayload q)) ∧
      (q.organization_job_locations = none →
        "organization_job_locations" ∉ keysOf (searchCompaniesPayload q)) := by
  intro p q
  refine ⟨groupClausesI_of_lookup _ _ _ _ (lookup_sp_revenue p),
    groupClausesI_of_lookup _ _ _ _ (lookup_sp_num_jobs p),
    groupClausesS_of_lookup _ _ _ _ (lookup_sp_posted_at p),
    groupClausesI_of_lookup _ _ _ _ (lookup_sc_revenue q),
    groupClausesI_of_lookup _ _ _ _ (lookup_sc_lf_amount q),
    groupClausesI_of_lookup _ _ _ _ (lookup_sc_total_funding q),
    groupClausesS_of_lookup _ _ _ _ (lookup_sc_lf_date q),
    groupClausesI_of_lookup _ _ _ _ (lookup_sc_num_jobs q),
    groupClausesS_of_lookup _ _ _ _ (lookup_sc_posted_at q),
    ?_, ?_, ?_, ?_, ?_, ?_, ?_, ?_, ?_, ?_, ?_, ?_, ?_,
    ?_, ?_, ?_, ?_, ?_, ?_, ?_, ?_, ?_, ?_, ?_, ?_⟩ <;>
  · intro h
    simp [searchPeoplePayload, searchCompaniesPayload, keysOf_append,
      keysOf_optEntryL, keysOf_optEntryS, keysOf_optEntryB, keysOf_grpEntryI,
      keysOf_grpEntryS, keysOf_cons, keysOf_nil, mem_ite_singleton, h]

/-- Witness for `payload_unset_params_absent` at a concrete all-omitted
parameter set. -/
theorem payload_unset_params_absent_witness :
    "revenue_range" ∉ keysOf (searchPeoplePayload spAllNone) ∧
    "person_titles" ∉ keysOf (searchPeoplePayload spAllNone) :=
  ⟨(payload_unset_params_absent spAllNone scAllNone).1.1 rfl rfl,
   (payload_unset_params_absent spAllNone
      scAllNone).2.2.2.2.2.2.2.2.2.1 rfl⟩

/-- C6: both search payloads always contain per_page with value
`min(requested, 100)`; in particular any request above 100 is clamped to
exactly 100, unconditionally. -/
theorem per_page_clamp :
    (∀ p : SPParams, lookupKey (searchPeoplePayload p) "per_page"
      = some (.intV (min p.per_page 100))) ∧
    (∀ q : SCParams, lookupKey (searchCompaniesPayload q) "per_page"
      = some (.intV (min q.per_page 100))) ∧
    (∀ p : SPParams, 100 < p.per_page →
      lookupKey (searchPeoplePayload p) "per_page" = some (.intV 100)) ∧
    (∀ q : SCParams, 100 < q.per_page →
      lookupKey (searchCompaniesPayload q) "per_page" = some (.intV 100)) := by
  have h1 : ∀ p : SPParams, lookupKey (searchPeoplePayload p) "per_page"
      = some (.intV (min p.per_page 100)) := by
    intro p
    simp [searchPeoplePayload, lookupKey_append, lookupKey]
  have h2 : ∀ q : SCParams, lookupKey (searchCompaniesPayload q) "per_page"
      = some (.intV (min q.per_page 100)) := by
    intro q
    simp [searchCompaniesPayload, lookupKey_append, lookupKey]
  refine ⟨h1, h2, ?_, ?_⟩
  · intro p hp
    rw [h1, min_eq_right (le_of_lt hp)]
  · intro q hq
    rw [h2, min_eq_right (le_of_lt hq)]

/-- Witness for `per_page_clamp`: with a requested page size of 250 the
payload carries 100. -/
theorem per_page_clamp_witness :
    lookupKey (searchPeoplePayload spAllNone) "per_page" = some (.intV 100) ∧
    lookupKey (searchCompaniesPayload scAllNone) "per_page" = some (.intV 100) :=
  ⟨per_page_clamp.2.2.1 spAllNone (by decide),
   per_page_clamp.2.2.2 scAllNone (by decide)⟩

/-- The example rows of the row-search properties. -/
def exampleRows : List (List String) := [["a", "1"], ["b", "2"], ["A", "3"]]

/-- C7: the row-search matching logic on rows
`[["a","1"],["b","2"],["A","3"]]`: term "a" case-insensitive with no
column restriction matches rows 1 and 3 with total 2; case-sensitive it
matches only row 1; column "B" with term "2" matches only row 2; row
numbers are 1-based positions in the input sequence. -/
theorem row_search_examples :
    spreadsheetsSearchCore exampleRows "a" none false
      = .ok ([⟨1, ["a", "1"]⟩, ⟨3, ["A", "3"]⟩], 2) ∧
    spreadsheetsSearchCore exampleRows "a" none true
      = .ok ([⟨1, ["a", "1"]⟩], 1) ∧
    spreadsheetsSearchCore exampleRows "2" (some "B") false
      = .ok ([⟨2, ["b", "2"]⟩], 1) :=
  ⟨rfl, rfl, rfl⟩

/-- C8: a multi-letter column selector is rejected before any cell is
compared: `ord` of a string whose length is not one raises, so the search
returns no match list at all (the TypeError escapes, modelled as
`Except.error`). -/
theorem multi_letter_column_rejected :
    ∀ (values : List (List String)) (term col : String) (cs : Bool),
      2 ≤ col.data.length →
      spreadsheetsSearchCore values term (some col) cs = .error .typeErr := by
  intro values term col cs h
  have hc : colOrd col = .error .typeErr := by
    rw [colOrd]
    obtain ⟨l⟩ := col
    match l with
    | [] => simp at h
    | [c] => simp at h
    | c1 :: c2 :: t => rfl
  rw [spreadsheetsSearchCore, hc]

/-- Witness for `multi_letter_column_rejected` at column "AA". -/
theorem multi_letter_column_rejected_witness :
    spreadsheetsSearchCore [["x"]] "x" (some "AA") false = .error .typeErr :=
  multi_letter_column_rejected [["x"]] "x" "AA" false (by decide)

/-- C9: when the stored record is expired and refreshable and the refresh
fails, `get_credentials` behaves exactly as if no token were stored: it
falls through to the interactive flow, whose failure (absent
client_secrets.json) is the only fatal outcome. -/
theorem refresh_failure_falls_back :
    ∀ (env : AuthEnv) (c : CredState) (e : String),
      env.tokenLoad = some (.ok c) →
      c.valid = false → c.expired = true → c.refresh_token = true →
      env.refreshResult = .error e →
      (getCredentials env = getCredentials (withNoToken env) ∧
       (env.secretsExist = false →
         getCredentials env = .error secretsMissingMsg) ∧
       (∀ c', env.secretsExist = true → env.flowResult = .ok c' →
         getCredentials env = .ok c')) := by
  intro env c e hload hv he hr href
  have h1 : getCredentials env = afterRefresh env none := by
    simp [getCredentials, hload, hv, he, hr, href]
  have h2 : getCredentials (withNoToken env) = afterRefresh env none := by
    simp [getCredentials, withNoToken, afterRefresh]
  refine ⟨h1.trans h2.symm, ?_, ?_⟩
  · intro hs
    rw [h1]
    simp [afterRefresh, hs]
  · intro c' hs hf
    rw [h1]
    simp [afterRefresh, hs, hf]

/-- A concrete environment: expired refreshable token, failing refresh,
client secrets present, succeeding interactive flow. -/
def envRefreshFail : AuthEnv :=
  ⟨some (.ok ⟨false, true, true⟩), .error "invalid_grant", true,
   .ok ⟨true, false, false⟩⟩

/-- Witness for `refresh_failure_falls_back`: the failed refresh ends in
the interactive flow's record. -/
theorem refresh_failure_falls_back_witness :
    getCredentials envRefreshFail = .ok ⟨true, false, false⟩ :=
  (refresh_failure_falls_back envRefreshFail ⟨false, true, true⟩
    "invalid_grant" rfl rfl rfl rfl rfl).2.2 ⟨true, false, false⟩ rfl rfl

/-- C1 counterexample: in the Apollo `search_people` tool a non-success
transport error is not caught at the call: it escapes the tool boundary as
an exception instead of being returned as an error object, contradicting
the claim that every tool in both servers converts transport errors. -/
theorem apollo_transport_error_uncaught :
    searchPeopleTool ["first_name"] (.httpError "403 Forbidden")
      = .error (.httpStatus "403 Forbidden") := rfl

/-- C1 amended: the google-sheets tools catch the provider error and return
an error object; the Apollo tools (search_people, enrich_person,
search_companies) let it propagate past the tool boundary. -/
theorem transport_error_boundary_amended :
    ∀ (reason : String) (fields : List String) (term : String)
      (col : Option String) (cs : Bool),
      sheetsGetTool (.httpError reason) = .ok (sheetsErrObj reason) ∧
      sheetsSearchTool (.httpError reason) term col cs
        = .ok (sheetsErrObj reason) ∧
      searchPeopleTool fields (.httpError reason)
        = .error (.httpStatus reason) ∧
      enrichPersonTool fields (.httpError reason)
        = .error (.httpStatus reason) ∧
      searchCompaniesTool fields (.httpError reason)
        = .error (.httpStatus reason) :=
  fun _ _ _ _ _ => ⟨rfl, rfl, rfl, rfl, rfl⟩

/-- Python `isinstance(v, dict)` on a JSON value. -/
def isDictV : Value → Bool
  | .obj _ => true
  | _ => false

theorem topAdd_none (person acc : JObj) (f : String)
    (h : lookupKey person f = none) : topAdd person acc f = acc := by
  simp [topAdd, h]

theorem topAdd_some (person acc : JObj) (f : String) (v : Value)
    (h : lookupKey person f = some v) : topAdd person acc f = setKey acc f v := by
  simp [topAdd, h]

theorem nestedAdd_none (person acc : JObj) (parent child : String)
    (h : lookupKey person parent = none) :
    nestedAdd person acc parent child = acc := by
  simp [nestedAdd, h]

theorem nestedAdd_null (person acc : JObj) (parent child : String)
    (h : lookupKey person parent = some .null) :
    nestedAdd person acc parent child = acc := by
  simp [nestedAdd, h]

theorem nestedAdd_scalar (person acc : JObj) (parent child : String) (pv : Value)
    (h : lookupKey person parent = some pv) (h2 : pv ≠ .null)
    (h3 : isDictV pv = false) :
    nestedAdd person acc parent child =
      if containsKey acc parent then acc else setKey acc parent (.obj []) := by
  cases pv <;> simp_all [nestedAdd, isDictV]

theorem nestedAdd_obj_none (person acc : JObj) (parent child : String) (po : JObj)
    (h : lookupKey person parent = some (.obj po))
    (hc : lookupKey po child = none) :
    nestedAdd person acc parent child =
      if containsKey acc parent then acc else setKey acc parent (.obj []) := by
  simp [nestedAdd, h, hc]

theorem nestedAdd_obj_some (person acc : JObj) (parent child : String)
    (po : JObj) (cv : Value)
    (h : lookupKey person parent = some (.obj po))
    (hc : lookupKey po child = some cv) :
    nestedAdd person acc parent child =
      setChild (if containsKey acc parent then acc else setKey acc parent (.obj []))
        parent child cv := by
  simp [nestedAdd, h, hc]

theorem projStep_dotted (person acc : JObj) (f parent child : String)
    (h : parentChild f = some (parent, child)) :
    projStep person acc f = nestedAdd person acc parent child := by
  simp [projStep, h]

theorem projStep_plain (person acc : JObj) (f : String)
    (h : parentChild f = none) :
    projStep person acc f = topAdd person acc f := by
  simp [projStep, h]

theorem mem_keysOf_setChild (acc : JObj) (p c : String) (v : Value) (k : String)
    (h : k ∈ keysOf (setChild acc p c v)) : k = p ∨ k ∈ keysOf acc := by
  rw [setChild] at h
  cases hl : lookupKey acc p <;> rw [hl] at h
  · right
    exact h
  case some v' =>
    cases v' <;> simp_all [mem_keysOf_setKey]

theorem mem_keysOf_ite_init (acc : JObj) (parent k : String)
    (h : k ∈ keysOf
      (if containsKey acc parent then acc else setKey acc parent (.obj []))) :
    k = parent ∨ k ∈ keysOf acc := by
  by_cases hca : containsKey acc parent
  · rw [if_pos hca] at h
    right
    exact h
  · rw [if_neg hca] at h
    rw [mem_keysOf_setKey] at h
    exact h

theorem mem_keysOf_projStep (person acc : JObj) (f k : String)
    (h : k ∈ keysOf (projStep person acc f)) :
    k ∈ keysOf acc ∨ containsKey person k = true := by
  cases hpc : parentChild f with
  | none =>
      rw [projStep_plain person acc f hpc] at h
      cases hl : lookupKey person f
      · rw [topAdd_none person acc f hl] at h
        left
        exact h
      case some v =>
        rw [topAdd_some person acc f v hl] at h
        rw [mem_keysOf_setKey] at h
        rcases h with h | h
        · right
          subst h
          rw [containsKey_eq_isSome_lookupKey, hl]
          rfl
        · left
          exact h
  | some pc =>
      obtain ⟨parent, child⟩ := pc
      rw [projStep_dotted person acc f parent child hpc] at h
      cases hl : lookupKey person parent
      · rw [nestedAdd_none person acc parent child hl] at h
        left
        exact h
      case some pv =>
        have hparent : containsKey person parent = true := by
          rw [containsKey_eq_isSome_lookupKey, hl]
          rfl
        cases hd : isDictV pv
        · by_cases hn : pv = Value.null
          · subst hn
            rw [nestedAdd_null person acc parent child hl] at h
            left
            exact h
          · rw [nestedAdd_scalar person acc parent child pv hl hn hd] at h
            rcases mem_keysOf_ite_init acc parent k h with h' | h'
            · right
              subst h'
              exact hparent
            · left
              exact h'
        · obtain ⟨po⟩ : ∃ po, pv = Value.obj po := by
            cases pv <;> simp_all [isDictV]
          subst_vars
          cases hc : lookupKey po child
          · rw [nestedAdd_obj_none person acc parent child po hl hc] at h
            rcases mem_keysOf_ite_init acc parent k h with h' | h'
            · right
              subst h'
              exact hparent
            · left
              exact h'
          case some cv =>
            rw [nestedAdd_obj_some person acc parent child po cv hl hc] at h
            rcases mem_keysOf_setChild _ _ _ _ _ h with h' | h'
            · right
              subst h'
              exact hparent
            · rcases mem_keysOf_ite_init acc parent k h' with h2 | h2
              · right
                subst h2
                exact hparent
              · left
                exact h2

theorem mem_keysOf_projFold (person : JObj) (fields : List String) (acc : JObj)
    (k : String) (h : k ∈ keysOf (fields.foldl (projStep person) acc)) :
    k ∈ keysOf acc ∨ containsKey person k = true := by
  induction fields generalizing acc with
  | nil => left; exact h
  | cons f fs ih =>
      rw [List.foldl_cons] at h
      rcases ih (projStep person acc f) h with h' | h'
      · exact mem_keysOf_projStep person acc f k h'
      · right
        exact h'

theorem mem_keysOf_topFold (person : JObj) (names : List String) (acc : JObj)
    (k : String) (h : k ∈ keysOf (names.foldl (topAdd person) acc)) :
    k ∈ keysOf acc ∨ containsKey person k = true := by
  induction names generalizing acc with
  | nil => left; exact h
  | cons f fs ih =>
      rw [List.foldl_cons] at h
      rcases ih (topAdd person acc f) h with h' | h'
      · cases hl : lookupKey person f
        · rw [topAdd_none person acc f hl] at h'
          left
          exact h'
        case some v =>
          rw [topAdd_some person acc f v hl] at h'
          rw [mem_keysOf_setKey] at h'
          rcases h' with h2 | h2
          · right
            subst h2
            rw [containsKey_eq_isSome_lookupKey, hl]
            rfl
          · left
            exact h2
      · right
        exact h'

theorem mem_keysOf_fallbackAdd (person acc : JObj) (fields : List String)
    (pfx key k : String)
    (h : k ∈ keysOf (fallbackAdd person acc fields pfx key)) :
    k ∈ keysOf acc ∨ containsKey person k = true := by
  rw [fallbackAdd] at h
  by_cases h1 : fields.any (fun f => pyStartsWith f pfx) = true
  · rw [if_pos h1] at h
    by_cases h2 : (containsKey person key && !containsKey acc key) = true
    · rw [if_pos h2] at h
      cases hl : lookupKey person key <;> rw [hl] at h
      · left
        exact h
      · rw [mem_keysOf_setKey] at h
        rcases h with h' | h'
        · right
          subst h'
          rw [containsKey_eq_isSome_lookupKey, hl]
          rfl
        · left
          exact h'
    · rw [if_neg h2] at h
      left
      exact h
  · rw [if_neg h1] at h
    left
    exact h

/-- C4: every projection result draws its top-level keys from the source
object, and a missing field never raises: absent top-level keys, absent
parents, non-dict parents and dicts lacking the child are all handled by
skipping (at most initialising an empty parent object). -/
theorem projection_keys_subset_source :
    ∀ (person : JObj) (fields : List String) (k : String),
      (k ∈ keysOf (projFields person fields) → containsKey person k = true) ∧
      (k ∈ keysOf (enrichProj person fields) → containsKey person k = true) ∧
      (k ∈ keysOf (orgProj person fields) → containsKey person k = true) ∧
      (∀ (acc : JObj) (f : String), parentChild f = none →
        containsKey person f = false → projStep person acc f = acc) ∧
      (∀ (acc : JObj) (parent child : String),
        lookupKey person parent = none →
        nestedAdd person acc parent child = acc) ∧
      (∀ (acc : JObj) (parent child : String) (pv : Value),
        lookupKey person parent = some pv → pv ≠ .null → isDictV pv = false →
        nestedAdd person acc parent child =
          if containsKey acc parent then acc else setKey acc parent (.obj [])) ∧
      (∀ (acc : JObj) (parent child : String) (po : JObj),
        lookupKey person parent = some (.obj po) → lookupKey po child = none →
        nestedAdd person acc parent child =
          if containsKey acc parent then acc else setKey acc parent (.obj [])) := by
  intro person fields k
  refine ⟨?_, ?_, ?_, ?_, ?_, ?_, ?_⟩
  · intro h
    rcases mem_keysOf_projFold person fields [] k h with h' | h'
    · simp [keysOf] at h'
    · exact h'
  · intro h
    simp only [enrichProj] at h
    rcases mem_keysOf_fallbackAdd person _ fields "organization." "organization" k h
      with h1 | h1
    · rcases mem_keysOf_fallbackAdd person _ fields "contact." "contact" k h1
        with h2 | h2
      · rcases mem_keysOf_topFold person alwaysIncludeArrays _ k h2 with h3 | h3
        · rcases mem_keysOf_projFold person fields [] k h3 with h4 | h4
          · simp [keysOf] at h4
          · exact h4
        · exact h3
      · exact h2
    · exact h1
  · intro h
    rcases mem_keysOf_topFold person fields [] k h with h' | h'
    · simp [keysOf] at h'
    · exact h'
  · intro acc f h1 h2
    rw [projStep_plain person acc f h1]
    exact topAdd_none person acc f (lookup_eq_none_of_not_containsKey person f h2)
  · intro acc parent child h1
    exact nestedAdd_none person acc parent child h1
  · intro acc parent child pv h1 h2 h3
    exact nestedAdd_scalar person acc parent child pv h1 h2 h3
  · intro acc parent child po h1 h2
    exact nestedAdd_obj_none person acc parent child po h1 h2

/-- Witness for `projection_keys_subset_source`: the one key of a concrete
projection is a source key. -/
theorem projection_keys_subset_source_witness :
    containsKey [("x", Value.intV 1)] "x" = true :=
  (projection_keys_subset_source [("x", .intV 1)] ["x"] "x").1 (by decide)

/-- Python `"." in s` restricted to the dot character. -/
def hasDotStr (s : String) : Bool := s.data.contains '.'

/-- C5: a requested path with more than one dot is split only at the first
dot; the remainder is handled as one literal child key, one level deep, so
the projector never addresses structure deeper than one level: the result
for such a single path is empty, an empty parent object, or the literal
child entry found one level down. -/
theorem deep_path_literal_child_only :
    ∀ (person : JObj) (f parent child : String),
      parentChild f = some (parent, child) →
      hasDotStr child = true →
      (projFields person [f] = [] ∨
       projFields person [f] = [(parent, .obj [])] ∨
       ∃ po cv, lookupKey person parent = some (.obj po) ∧
         lookupKey po child = some cv ∧
         projFields person [f] = [(parent, .obj [(child, cv)])]) := by
  intro person f parent child hpc hdot
  have hstep : projFields person [f] = nestedAdd person [] parent child := by
    rw [projFields, List.foldl_cons, List.foldl_nil,
      projStep_dotted person [] f parent child hpc]
  rw [hstep]
  cases hl : lookupKey person parent with
  | none =>
      left
      exact nestedAdd_none person [] parent child hl
  | some pv =>
      cases hd : isDictV pv
      · by_cases hn : pv = Value.null
        · subst hn
          left
          exact nestedAdd_null person [] parent child hl
        · right
          left
          rw [nestedAdd_scalar person [] parent child pv hl hn hd]
          simp [containsKey, setKey]
      · obtain ⟨po⟩ : ∃ po, pv = Value.obj po := by
          cases pv <;> simp_all [isDictV]
        subst_vars
        cases hc : lookupKey po child with
        | none =>
            right
            left
            rw [nestedAdd_obj_none person [] parent child po hl hc]
            simp [containsKey, setKey]
        | some cv =>
            right
            right
            refine ⟨po, cv, rfl, hc, ?_⟩
            rw [nestedAdd_obj_some person [] parent child po cv hl hc]
            simp [containsKey, setKey, setChild, lookupKey]

/-- A source person whose nested structure is genuinely two levels deep. -/
def deepPerson : JObj := [("a", .obj [("b", .obj [("c", .intV 7)])])]

/-- Witness for `deep_path_literal_child_only` at the path "a.b.c": the
projector splits it into parent "a" and literal child "b.c". -/
theorem deep_path_literal_child_only_witness :
    projFields deepPerson ["a.b.c"] = [] ∨
    projFields deepPerson ["a.b.c"] = [("a", .obj [])] ∨
    ∃ po cv, lookupKey deepPerson "a" = some (.obj po) ∧
      lookupKey po "b.c" = some cv ∧
      projFields deepPerson ["a.b.c"] = [("a", .obj [("b.c", cv)])] :=
  deep_path_literal_child_only deepPerson "a.b.c" "a" "b.c" rfl rfl

/-- Whether a dotted field names the given key as its parent. -/
def parentIs (k f : String) : Bool :=
  match parentChild f with
  | some (p, _) => p = k
  | none => false

theorem lookupKey_topAdd_ne (person acc : JObj) (f k : String) (h : f ≠ k) :
    lookupKey (topAdd person acc f) k = lookupKey acc k := by
  cases hl : lookupKey person f
  · rw [topAdd_none person acc f hl]
  · rw [topAdd_some person acc f _ hl, lookupKey_setKey_ne _ _ _ _ (Ne.symm h)]

theorem lookupKey_ite_init_ne (acc : JObj) (parent k : String) (h : parent ≠ k) :
    lookupKey (if containsKey acc parent then acc
      else setKey acc parent (.obj [])) k = lookupKey acc k := by
  by_cases hca : containsKey acc parent
  · rw [if_pos hca]
  · rw [if_neg hca, lookupKey_setKey_ne _ _ _ _ (Ne.symm h)]

theorem lookupKey_setChild_ne (acc : JObj) (p c : String) (v : Value) (k : String)
    (h : p ≠ k) : lookupKey (setChild acc p c v) k = lookupKey acc k := by
  rw [setChild]
  cases hl : lookupKey acc p
  · rfl
  case some v' =>
    cases v' <;> first
      | rfl
      | rw [lookupKey_setKey_ne _ _ _ _ (Ne.symm h)]

theorem lookupKey_nestedAdd_ne (person acc : JObj) (p c k : String) (h : p ≠ k) :
    lookupKey (nestedAdd person acc p c) k = lookupKey acc k := by
  cases hl : lookupKey person p with
  | none => rw [nestedAdd_none _ _ _ _ hl]
  | some pv =>
      cases hd : isDictV pv
      · by_cases hn : pv = Value.null
        · subst hn
          rw [nestedAdd_null _ _ _ _ hl]
        · rw [nestedAdd_scalar _ _ _ _ _ hl hn hd, lookupKey_ite_init_ne _ _ _ h]
      · obtain ⟨po⟩ : ∃ po, pv = Value.obj po := by
          cases pv <;> simp_all [isDictV]
        subst_vars
        cases hc : lookupKey po c with
        | none =>
            rw [nestedAdd_obj_none _ _ _ _ _ hl hc, lookupKey_ite_init_ne _ _ _ h]
        | some cv =>
            rw [nestedAdd_obj_some _ _ _ _ _ _ hl hc,
              lookupKey_setChild_ne _ _ _ _ _ h, lookupKey_ite_init_ne _ _ _ h]

theorem lookup_projFold_null (person : JObj) (k : String)
    (hk : lookupKey person k = some .null) :
    ∀ (fields : List String) (acc : JObj),
      (∀ f ∈ fields, f ≠ k) →
      lookupKey (fields.foldl (projStep person) acc) k = lookupKey acc k := by
  intro fields
  induction fields with
  | nil => intro acc _; rfl
  | cons f fs ih =>
      intro acc hall
      rw [List.foldl_cons,
        ih (projStep person acc f) (fun g hg => hall g (List.mem_cons_of_mem f hg))]
      have hf : f ≠ k := hall f (List.mem_cons_self f fs)
      cases hpc : parentChild f with
      | none => rw [projStep_plain _ _ _ hpc, lookupKey_topAdd_ne _ _ _ _ hf]
      | some pc =>
          obtain ⟨p, c⟩ := pc
          rw [projStep_dotted _ _ _ _ _ hpc]
          by_cases hpk : p = k
          · subst hpk
            rw [nestedAdd_null _ _ _ _ hk]
          · rw [lookupKey_nestedAdd_ne _ _ _ _ _ hpk]

theorem lookup_projFold_scalar (person : JObj) (k : String) (pv : Value)
    (hk : lookupKey person k = some pv) (hn : pv ≠ .null)
    (hd : isDictV pv = false) :
    ∀ (fields : List String) (acc : JObj),
      (∀ f ∈ fields, f ≠ k) →
      lookupKey (fields.foldl (projStep person) acc) k =
        match lookupKey acc k with
        | some v => some v
        | none => if fields.any (parentIs k) then some (.obj []) else none := by
  intro fields
  induction fields with
  | nil =>
      intro acc _
      rw [List.foldl_nil]
      cases lookupKey acc k <;> rfl
  | cons f fs ih =>
      intro acc hall
      rw [List.foldl_cons,
        ih (projStep person acc f) (fun g hg => hall g (List.mem_cons_of_mem f hg))]
      have hf : f ≠ k := hall f (List.mem_cons_self f fs)
      cases hpc : parentChild f with
      | none =>
          have hpi : parentIs k f = false := by simp [parentIs, hpc]
          rw [projStep_plain _ _ _ hpc, lookupKey_topAdd_ne _ _ _ _ hf]
          cases hl : lookupKey acc k <;> simp [List.any_cons, hpi]
      | some pc =>
          obtain ⟨p, c⟩ := pc
          rw [projStep_dotted _ _ _ _ _ hpc]
          by_cases hpk : p = k
          · have hpi : parentIs k f = true := by simp [parentIs, hpc, hpk]
            rw [hpk]
            rw [nestedAdd_scalar _ _ _ _ _ hk hn hd]
            by_cases hca : containsKey acc k
            · rw [if_pos hca]
              have hsome := hca
              rw [containsKey_eq_isSome_lookupKey] at hsome
              cases hl : lookupKey acc k
              · rw [hl] at hsome
                simp at hsome
              · simp
            · rw [if_neg hca, lookupKey_setKey_self]
              have hnone : lookupKey acc k = none := by
                apply lookup_eq_none_of_not_containsKey
                rwa [Bool.not_eq_true] at hca
              rw [hnone]
              simp [List.any_cons, hpi]
          · have hpi : parentIs k f = false := by simp [parentIs, hpc, hpk]
            rw [lookupKey_nestedAdd_ne _ _ _ _ _ hpk]
            cases hl : lookupKey acc k <;> simp [List.any_cons, hpi]

theorem lookup_arraysFold_ne (person acc : JObj) (k : String)
    (h1 : "employment_history" ≠ k) (h2 : "contact_emails" ≠ k)
    (h3 : "phone_numbers" ≠ k) :
    lookupKey (alwaysIncludeArrays.foldl (topAdd person) acc) k
      = lookupKey acc k := by
  simp only [alwaysIncludeArrays, List.foldl_cons, List.foldl_nil]
  rw [lookupKey_topAdd_ne _ _ _ _ h3, lookupKey_topAdd_ne _ _ _ _ h2,
    lookupKey_topAdd_ne _ _ _ _ h1]

theorem lookupKey_fallbackAdd_ne (person acc : JObj) (fields : List String)
    (pfx key k : String) (h : key ≠ k) :
    lookupKey (fallbackAdd person acc fields pfx key) k = lookupKey acc k := by
  rw [fallbackAdd]
  by_cases h1 : fields.any (fun f => pyStartsWith f pfx) = true
  · rw [if_pos h1]
    by_cases h2 : (containsKey person key && !containsKey acc key) = true
    · rw [if_pos h2]
      cases hl : lookupKey person key
      · rfl
      · rw [lookupKey_setKey_ne _ _ _ _ (Ne.symm h)]
    · rw [if_neg h2]
  · rw [if_neg h1]

theorem lookupKey_fallbackAdd_fires (person acc : JObj) (fields : List String)
    (pfx key : String) (v : Value)
    (h1 : fields.any (fun f => pyStartsWith f pfx) = true)
    (h2 : lookupKey person key = some v)
    (h3 : lookupKey acc key = none) :
    lookupKey (fallbackAdd person acc fields pfx key) key = some v := by
  have hcp : containsKey person key = true := by
    rw [containsKey_eq_isSome_lookupKey, h2]
    rfl
  have hca : containsKey acc key = false := by
    rw [containsKey_eq_isSome_lookupKey, h3]
    rfl
  rw [fallbackAdd, if_pos h1]
  rw [hcp, hca]
  simp [h2, lookupKey_setKey_self]

theorem lookupKey_fallbackAdd_present (person acc : JObj) (fields : List String)
    (pfx key : String) (h3 : (lookupKey acc key).isSome = true) :
    lookupKey (fallbackAdd person acc fields pfx key) key = lookupKey acc key := by
  have hca : containsKey acc key = true := by
    rw [containsKey_eq_isSome_lookupKey]
    exact h3
  rw [fallbackAdd]
  by_cases h1 : fields.any (fun f => pyStartsWith f pfx) = true
  · rw [if_pos h1, hca]
    simp
  · rw [if_neg h1]

theorem splitFirstDot_of_prefCh :
    ∀ (qc l : List Char), '.' ∉ qc → prefCh (qc ++ ['.']) l = true →
      ∃ rest, l = qc ++ '.' :: rest ∧ splitFirstDot l = some (qc, rest) := by
  intro qc
  induction qc with
  | nil =>
      intro l _ h
      cases l with
      | nil => simp [prefCh] at h
      | cons c cs =>
          simp only [List.nil_append, prefCh, Bool.and_eq_true, beq_iff_eq] at h
          obtain ⟨hc, -⟩ := h
          subst hc
          exact ⟨cs, by simp, by simp [splitFirstDot]⟩
  | cons a as ih =>
      intro l hk h
      cases l with
      | nil => simp [prefCh] at h
      | cons b bs =>
          simp only [List.cons_append, prefCh, Bool.and_eq_true, beq_iff_eq] at h
          obtain ⟨hab, hrest⟩ := h
          subst hab
          have hk' : '.' ∉ as := fun hh => hk (List.mem_cons_of_mem _ hh)
          have hka : ¬ a = '.' := fun hh => hk (hh ▸ List.mem_cons_self _ _)
          obtain ⟨rest, hbs, hsplit⟩ := ih bs hk' hrest
          refine ⟨rest, by simp [hbs], ?_⟩
          rw [splitFirstDot, if_neg hka, hsplit]

theorem parentIs_of_startsWith (k pfx f : String) (hpfx : pfx.data = k.data ++ ['.'])
    (hk : '.' ∉ k.data) (h : pyStartsWith f pfx = true) :
    parentIs k f = true := by
  rw [pyStartsWith, hpfx] at h
  obtain ⟨rest, hfd, hsplit⟩ := splitFirstDot_of_prefCh k.data f.data hk h
  rw [parentIs, parentChild, hsplit]
  simp

/-- C2 counterexample: with source `{"contact": 5}` and requested field
"contact.email", the child check fails (parent present but not an object),
yet the result holds an empty object under "contact" — not the entire
source value 5 the claim promises — because the per-field loop already
created the empty parent entry and the fallback therefore does not fire. -/
theorem enrich_fallback_not_whole_object :
    lookupKey (enrichProj [("contact", .intV 5)] ["contact.email"]) "contact"
      = some (.obj []) ∧
    lookupKey [("contact", Value.intV 5)] "contact" = some (.intV 5) ∧
    Value.obj [] ≠ Value.intV 5 :=
  ⟨rfl, rfl, fun h => Value.noConfusion h⟩

/-- The children the per-field loop projects out of a dict-valued parent:
for each field whose parent is the given key, copy the literal child from
the parent object when present. -/
def childAdd (po : JObj) (k : String) (o : JObj) (f : String) : JObj :=
  match parentChild f with
  | some (p, c) =>
      if p = k then
        match lookupKey po c with
        | some cv => setKey o c cv
        | none => o
      else o
  | none => o

theorem lookupKey_setChild_entry (acc : JObj) (k c : String) (cv : Value)
    (o0 : JObj) (hacc : lookupKey acc k = some (.obj o0)) :
    lookupKey (setChild acc k c cv) k = some (.obj (setKey o0 c cv)) := by
  rw [setChild, hacc]
  exact lookupKey_setKey_self _ _ _

theorem lookup_projFold_dict_entry (person : JObj) (k : String) (po : JObj)
    (hk : lookupKey person k = some (.obj po)) :
    ∀ (fields : List String) (acc o0 : JObj),
      (∀ f ∈ fields, f ≠ k) →
      lookupKey acc k = some (.obj o0) →
      lookupKey (fields.foldl (projStep person) acc) k
        = some (.obj (fields.foldl (childAdd po k) o0)) := by
  intro fields
  induction fields with
  | nil =>
      intro acc o0 _ hacc
      rw [List.foldl_nil, List.foldl_nil]
      exact hacc
  | cons f fs ih =>
      intro acc o0 hall hacc
      rw [List.foldl_cons, List.foldl_cons]
      have hf : f ≠ k := hall f (List.mem_cons_self f fs)
      have hall' : ∀ g ∈ fs, g ≠ k := fun g hg => hall g (List.mem_cons_of_mem f hg)
      cases hpc : parentChild f with
      | none =>
          have hstep : lookupKey (projStep person acc f) k = some (.obj o0) := by
            rw [projStep_plain _ _ _ hpc, lookupKey_topAdd_ne _ _ _ _ hf]
            exact hacc
          have hchild : childAdd po k o0 f = o0 := by simp [childAdd, hpc]
          rw [hchild]
          exact ih _ _ hall' hstep
      | some pc =>
          obtain ⟨p, c⟩ := pc
          by_cases hpk : p = k
          · have hca : containsKey acc k = true := by
              rw [containsKey_eq_isSome_lookupKey, hacc]
              rfl
            have hchild : childAdd po k o0 f =
                (match lookupKey po c with
                 | some cv => setKey o0 c cv
                 | none => o0) := by
              simp [childAdd, hpc, hpk]
            cases hc : lookupKey po c with
            | some cv =>
                have hstep : lookupKey (projStep person acc f) k
                    = some (.obj (setKey o0 c cv)) := by
                  rw [projStep_dotted _ _ _ _ _ hpc, hpk,
                    nestedAdd_obj_some _ _ _ _ _ _ hk hc, if_pos hca]
                  exact lookupKey_setChild_entry acc k c cv o0 hacc
                rw [hchild, hc]
                exact ih _ _ hall' hstep
            | none =>
                have hstep : lookupKey (projStep person acc f) k
                    = some (.obj o0) := by
                  rw [projStep_dotted _ _ _ _ _ hpc, hpk,
                    nestedAdd_obj_none _ _ _ _ _ hk hc, if_pos hca]
                  exact hacc
                rw [hchild, hc]
                exact ih _ _ hall' hstep
          · have hstep : lookupKey (projStep person acc f) k = some (.obj o0) := by
              rw [projStep_dotted _ _ _ _ _ hpc, lookupKey_nestedAdd_ne _ _ _ _ _ hpk]
              exact hacc
            have hchild : childAdd po k o0 f = o0 := by simp [childAdd, hpc, hpk]
            rw [hchild]
            exact ih _ _ hall' hstep

theorem lookup_projFold_dict (person : JObj) (k : String) (po : JObj)
    (hk : lookupKey person k = some (.obj po)) :
    ∀ (fields : List String) (acc : JObj),
      (∀ f ∈ fields, f ≠ k) →
      lookupKey acc k = none →
      lookupKey (fields.foldl (projStep person) acc) k =
        if fields.any (parentIs k) then
          some (.obj (fields.foldl (childAdd po k) []))
        else none := by
  intro fields
  induction fields with
  | nil =>
      intro acc _ hacc
      rw [List.foldl_nil]
      simp [hacc]
  | cons f fs ih =>
      intro acc hall hacc
      have hf : f ≠ k := hall f (List.mem_cons_self f fs)
      have hall' : ∀ g ∈ fs, g ≠ k := fun g hg => hall g (List.mem_cons_of_mem f hg)
      rw [List.foldl_cons]
      cases hpc : parentChild f with
      | none =>
          have hpi : parentIs k f = false := by simp [parentIs, hpc]
          have hstep : lookupKey (projStep person acc f) k = none := by
            rw [projStep_plain _ _ _ hpc, lookupKey_topAdd_ne _ _ _ _ hf]
            exact hacc
          have hchild : childAdd po k [] f = [] := by simp [childAdd, hpc]
          rw [ih _ hall' hstep]
          simp [List.any_cons, hpi, List.foldl_cons, hchild]
      | some pc =>
          obtain ⟨p, c⟩ := pc
          by_cases hpk : p = k
          · have hpi : parentIs k f = true := by simp [parentIs, hpc, hpk]
            have hca : ¬ containsKey acc k = true := by
              rw [containsKey_eq_isSome_lookupKey, hacc]
              simp
            have hchild : childAdd po k [] f =
                (match lookupKey po c with
                 | some cv => setKey [] c cv
                 | none => []) := by
              simp [childAdd, hpc, hpk]
            have hstep : lookupKey (projStep person acc f) k
                = some (.obj (childAdd po k [] f)) := by
              rw [projStep_dotted _ _ _ _ _ hpc, hpk]
              cases hc : lookupKey po c with
              | some cv =>
                  rw [nestedAdd_obj_some _ _ _ _ _ _ hk hc, if_neg hca,
                    hchild, hc]
                  exact lookupKey_setChild_entry _ k c cv []
                    (lookupKey_setKey_self acc k (.obj []))
              | none =>
                  rw [nestedAdd_obj_none _ _ _ _ _ hk hc, if_neg hca,
                    hchild, hc]
                  exact lookupKey_setKey_self acc k (.obj [])
            rw [lookup_projFold_dict_entry person k po hk fs _ _ hall' hstep]
            simp [List.any_cons, hpi, List.foldl_cons]
          · have hpi : parentIs k f = false := by simp [parentIs, hpc, hpk]
            have hstep : lookupKey (projStep person acc f) k = none := by
              rw [projStep_dotted _ _ _ _ _ hpc, lookupKey_nestedAdd_ne _ _ _ _ _ hpk]
              exact hacc
            have hchild : childAdd po k [] f = [] := by simp [childAdd, hpc, hpk]
            rw [ih _ hall' hstep]
            simp [List.any_cons, hpi, List.foldl_cons, hchild]

theorem childFold_nil (po : JObj) (k : String) (fields : List String)
    (h : ∀ f ∈ fields, ∀ p c, parentChild f = some (p, c) → p = k →
      lookupKey po c = none) :
    fields.foldl (childAdd po k) [] = [] := by
  induction fields with
  | nil => rfl
  | cons f fs ih =>
      rw [List.foldl_cons]
      have hstep : childAdd po k [] f = [] := by
        cases hpc : parentChild f with
        | none => simp [childAdd, hpc]
        | some pc =>
            obtain ⟨p, c⟩ := pc
            by_cases hpk : p = k
            · have := h f (List.mem_cons_self f fs) p c hpc hpk
              simp [childAdd, hpc, hpk, this]
            · simp [childAdd, hpc, hpk]
      rw [hstep]
      exact ih (fun g hg => h g (List.mem_cons_of_mem f hg))

/-- C2 amended: when a requested field starts with "contact." (resp.
"organization.") and the source has that key, the per-field loop creates
the parent entry exactly when the key's value is non-null, so the fallback
hands the caller the source value whole only in the null case. In every
failed-child-check case of the claim — parent present but not an object,
or parent an object lacking every requested child — the loop has already
installed an empty object under the key, the fallback does not fire, and
the caller receives that empty object, not the whole source object; in
general a dict-valued parent yields exactly the loop's partial child
projection, and every non-null parent yields some object, never the raw
source value via the fallback. -/
theorem enrich_fallback_amended :
    ∀ (person : JObj) (fields : List String) (pv : Value),
      (lookupKey person "contact" = some pv →
       (∃ f ∈ fields, pyStartsWith f "contact." = true) →
       (∀ f ∈ fields, f ≠ "contact") →
       ((pv = .null →
          lookupKey (enrichProj person fields) "contact" = some pv) ∧
        (pv ≠ .null → isDictV pv = false →
          lookupKey (enrichProj person fields) "contact" = some (.obj [])) ∧
        (∀ po, pv = .obj po →
          lookupKey (enrichProj person fields) "contact"
            = some (.obj (fields.foldl (childAdd po "contact") []))) ∧
        (∀ po, pv = .obj po →
          (∀ f ∈ fields, ∀ p c, parentChild f = some (p, c) → p = "contact" →
            lookupKey po c = none) →
          lookupKey (enrichProj person fields) "contact" = some (.obj [])) ∧
        (pv ≠ .null → ∃ l,
          lookupKey (enrichProj person fields) "contact" = some (.obj l)))) ∧
      (lookupKey person "organization" = some pv →
       (∃ f ∈ fields, pyStartsWith f "organization." = true) →
       (∀ f ∈ fields, f ≠ "organization") →
       ((pv = .null →
          lookupKey (enrichProj person fields) "organization" = some pv) ∧
        (pv ≠ .null → isDictV pv = false →
          lookupKey (enrichProj person fields) "organization" = some (.obj [])) ∧
        (∀ po, pv = .obj po →
          lookupKey (enrichProj person fields) "organization"
            = some (.obj (fields.foldl (childAdd po "organization") []))) ∧
        (∀ po, pv = .obj po →
          (∀ f ∈ fields, ∀ p c, parentChild f = some (p, c) →
            p = "organization" → lookupKey po c = none) →
          lookupKey (enrichProj person fields) "organization" = some (.obj [])) ∧
        (pv ≠ .null → ∃ l,
          lookupKey (enrichProj person fields) "organization"
            = some (.obj l)))) := by
  intro person fields pv
  constructor
  · intro hk hex hall
    have hany : fields.any (fun f => pyStartsWith f "contact.") = true := by
      obtain ⟨f, hf, hsw⟩ := hex
      exact List.any_eq_true.mpr ⟨f, hf, hsw⟩
    have hpi : fields.any (parentIs "contact") = true := by
      obtain ⟨f, hf, hsw⟩ := hex
      exact List.any_eq_true.mpr
        ⟨f, hf, parentIs_of_startsWith "contact" "contact." f
          (by decide) (by decide) hsw⟩
    have hlift : ∀ X : JObj,
        lookupKey (projFields person fields) "contact" = some (.obj X) →
        lookupKey (enrichProj person fields) "contact" = some (.obj X) := by
      intro X hbase
      have harr : lookupKey
          (alwaysIncludeArrays.foldl (topAdd person) (projFields person fields))
          "contact" = some (.obj X) := by
        rw [lookup_arraysFold_ne _ _ _ (by decide) (by decide) (by decide)]
        exact hbase
      simp only [enrichProj]
      rw [lookupKey_fallbackAdd_ne _ _ _ _ _ _
        (by decide : ("organization" : String) ≠ "contact")]
      rw [lookupKey_fallbackAdd_present _ _ _ _ _ (by rw [harr]; rfl)]
      exact harr
    have hscalar : pv ≠ .null → isDictV pv = false →
        lookupKey (enrichProj person fields) "contact" = some (.obj []) := by
      intro hnn hd
      apply hlift
      rw [projFields,
        lookup_projFold_scalar person "contact" pv hk hnn hd fields [] hall]
      simp [lookupKey_nil, hpi]
    have hdict : ∀ po, pv = .obj po →
        lookupKey (enrichProj person fields) "contact"
          = some (.obj (fields.foldl (childAdd po "contact") [])) := by
      intro po hpv
      have hk' : lookupKey person "contact" = some (.obj po) := by
        rw [← hpv]
        exact hk
      apply hlift
      rw [projFields,
        lookup_projFold_dict person "contact" po hk' fields [] hall rfl,
        if_pos hpi]
    refine ⟨?_, hscalar, hdict, ?_, ?_⟩
    · intro hnull
      subst hnull
      have hbase : lookupKey (projFields person fields) "contact" = none := by
        rw [projFields, lookup_projFold_null person "contact" hk fields [] hall]
        rfl
      simp only [enrichProj]
      rw [lookupKey_fallbackAdd_ne _ _ _ _ _ _
        (by decide : ("organization" : String) ≠ "contact")]
      apply lookupKey_fallbackAdd_fires _ _ _ _ _ _ hany hk
      rw [lookup_arraysFold_ne _ _ _ (by decide) (by decide) (by decide)]
      exact hbase
    · intro po hpv habs
      have hb := hdict po hpv
      rw [childFold_nil po "contact" fields habs] at hb
      exact hb
    · intro hnn
      cases hd : isDictV pv
      · exact ⟨[], hscalar hnn hd⟩
      · obtain ⟨po, hpv⟩ : ∃ po, pv = Value.obj po := by
          cases pv <;> simp_all [isDictV]
        exact ⟨_, hdict po hpv⟩
  · intro hk hex hall
    have hany : fields.any (fun f => pyStartsWith f "organization.") = true := by
      obtain ⟨f, hf, hsw⟩ := hex
      exact List.any_eq_true.mpr ⟨f, hf, hsw⟩
    have hpi : fields.any (parentIs "organization") = true := by
      obtain ⟨f, hf, hsw⟩ := hex
      exact List.any_eq_true.mpr
        ⟨f, hf, parentIs_of_startsWith "organization" "organization." f
          (by decide) (by decide) hsw⟩
    have hlift : ∀ X : JObj,
        lookupKey (projFields person fields) "organization" = some (.obj X) →
        lookupKey (enrichProj person fields) "organization" = some (.obj X) := by
      intro X hbase
      have h2 : lookupKey
          (fallbackAdd person
            (alwaysIncludeArrays.foldl (topAdd person) (projFields person fields))
            fields "contact." "contact") "organization" = some (.obj X) := by
        rw [lookupKey_fallbackAdd_ne _ _ _ _ _ _
          (by decide : ("contact" : String) ≠ "organization")]
        rw [lookup_arraysFold_ne _ _ _ (by decide) (by decide) (by decide)]
        exact hbase
      simp only [enrichProj]
      rw [lookupKey_fallbackAdd_present _ _ _ _ _ (by rw [h2]; rfl)]
      exact h2
    have hscalar : pv ≠ .null → isDictV pv = false →
        lookupKey (enrichProj person fields) "organization" = some (.obj []) := by
      intro hnn hd
      apply hlift
      rw [projFields,
        lookup_projFold_scalar person "organization" pv hk hnn hd fields [] hall]
      simp [lookupKey_nil, hpi]
    have hdict : ∀ po, pv = .obj po →
        lookupKey (enrichProj person fields) "organization"
          = some (.obj (fields.foldl (childAdd po "organization") [])) := by
      intro po hpv
      have hk' : lookupKey person "organization" = some (.obj po) := by
        rw [← hpv]
        exact hk
      apply hlift
      rw [projFields,
        lookup_projFold_dict person "organization" po hk' fields [] hall rfl,
        if_pos hpi]
    refine ⟨?_, hscalar, hdict, ?_, ?_⟩
    · intro hnull
      subst hnull
      have hbase : lookupKey (projFields person fields) "organization" = none := by
        rw [projFields,
          lookup_projFold_null person "organization" hk fields [] hall]
        rfl
      simp only [enrichProj]
      apply lookupKey_fallbackAdd_fires _ _ _ _ _ _ hany hk
      rw [lookupKey_fallbackAdd_ne _ _ _ _ _ _
        (by decide : ("contact" : String) ≠ "organization")]
      rw [lookup_arraysFold_ne _ _ _ (by decide) (by decide) (by decide)]
      exact hbase
    · intro po hpv habs
      have hb := hdict po hpv
      rw [childFold_nil po "organization" fields habs] at hb
      exact hb
    · intro hnn
      cases hd : isDictV pv
      · exact ⟨[], hscalar hnn hd⟩
      · obtain ⟨po, hpv⟩ : ∃ po, pv = Value.obj po := by
          cases pv <;> simp_all [isDictV]
        exact ⟨_, hdict po hpv⟩

/-- Witness for `enrich_fallback_amended` at the counterexample input and
at a dict parent lacking the requested child: both end in an empty object,
not the whole source value. -/
theorem enrich_fallback_amended_witness :
    lookupKey (enrichProj [("contact", Value.intV 5)] ["contact.email"]) "contact"
      = some (.obj []) ∧
    lookupKey (enrichProj [("contact", Value.obj [("name", Value.str "x")])]
      ["contact.email"]) "contact" = some (.obj []) :=
  ⟨((enrich_fallback_amended [("contact", .intV 5)] ["contact.email"]
      (.intV 5)).1 rfl ⟨"contact.email", by simp, rfl⟩ (by simp)).2.1
    (fun h => Value.noConfusion h) rfl,
   ((enrich_fallback_amended [("contact", .obj [("name", .str "x")])]
      ["contact.email"] (.obj [("name", .str "x")])).1 rfl
      ⟨"contact.email", by simp, rfl⟩ (by simp)).2.2.2.1
    [("name", .str "x")] rfl
    (by
      intro f hf p c hpc hp
      simp only [List.mem_singleton] at hf
      subst hf
      rw [show parentChild "contact.email" = some ("contact", "email")
        from rfl] at hpc
      simp only [Option.some.injEq, Prod.mk.injEq] at hpc
      obtain ⟨hp1, hc1⟩ := hpc
      subst hc1
      rfl)⟩


theorem pyIndex_error_eq (row : List String) (i : Int) (e : PyErr)
    (h : pyIndex row i = .error e) : e = .indexErr := by
  rw [pyIndex] at h
  by_cases h1 : (0:Int) ≤ i
  · rw [if_pos h1] at h
    cases hg : row.get? i.toNat <;> rw [hg] at h <;> simp_all
  · rw [if_neg h1] at h
    by_cases h2 : (0:Int) ≤ (row.length : Int) + i
    · rw [if_pos h2] at h
      cases hg : row.get? ((row.length : Int) + i).toNat <;> rw [hg] at h <;>
        simp_all
    · rw [if_neg h2] at h
      simp_all

theorem searchLoop_err_of_empty_row (ci : Int) (s : String) (cs : Bool)
    (hci : ci < 0) :
    ∀ (i : Nat) (values : List (List String)), [] ∈ values →
      searchLoop (some ci) s cs i values = .error .indexErr := by
  intro i values
  induction values generalizing i with
  | nil =>
      intro h
      simp at h
  | cons row rest ih =>
      intro hmem
      have hguard : ci < (row.length : Int) := by
        have := Int.ofNat_nonneg row.length
        omega
      rw [searchLoop, if_pos hguard]
      cases hrow : pyIndex row ci with
      | error e =>
          have he := pyIndex_error_eq row ci e hrow
          subst he
          rfl
      | ok cell =>
          have hrow_ne : row ≠ [] := by
            intro hr
            subst hr
            rw [pyIndex] at hrow
            rw [if_neg (by omega : ¬ (0:Int) ≤ ci)] at hrow
            rw [if_neg (by simp; omega :
              ¬ (0:Int) ≤ ((([] : List String).length : Int) + ci))] at hrow
            exact Except.noConfusion hrow
          have hmem' : [] ∈ rest := by
            rcases List.mem_cons.mp hmem with h | h
            · exact absurd h.symm hrow_ne
            · exact h
          simp only [ih (i + 1) hmem']

/-- C10 counterexample: with column "0" (computed index -17) and the
non-empty row ["a"], the cell access does not silently read from the end:
the magnitude exceeds the row length and an uncaught IndexError escapes,
so the claim's "for every non-empty row the comparison silently reads a
cell" fails at this input. -/
theorem negative_index_short_row_error :
    spreadsheetsSearchCore [["a"]] "a" (some "0") false = .error .indexErr := rfl

/-- C10 amended: a single-character selector below 'A' yields a negative
column index; the bounds check passes for every row; a negative index
reads from the end (index -1 reads the last cell) only when the row is at
least as long as the index's magnitude; when the magnitude exceeds the row
length — in particular for every empty row — the access raises an
uncaught IndexError, which aborts the whole search. -/
theorem negative_index_amended :
    ∀ (c : Char) (row : List String) (x : String) (l : List String)
      (ci : Int) (values : List (List String)) (term : String) (cs : Bool),
      (c.toUpper.toNat < 65 → ∃ n, colOrd ⟨[c]⟩ = .ok n ∧ n < 0) ∧
      (ci < 0 → ci < (row.length : Int)) ∧
      pyIndex (l ++ [x]) (-1) = .ok x ∧
      (ci < 0 → (row.length : Int) + ci < 0 →
        pyIndex row ci = .error .indexErr) ∧
      (c.toUpper.toNat < 65 → [] ∈ values →
        spreadsheetsSearchCore values term (some ⟨[c]⟩) cs
          = .error .indexErr) := by
  intro c row x l ci values term cs
  refine ⟨?_, ?_, ?_, ?_, ?_⟩
  · intro h
    refine ⟨(c.toUpper.toNat : Int) - 65, rfl, ?_⟩
    have : (c.toUpper.toNat : Int) < 65 := by exact_mod_cast h
    omega
  · intro h
    have := Int.ofNat_nonneg row.length
    omega
  · rw [pyIndex, if_neg (by decide : ¬ (0:Int) ≤ -1)]
    have hj : (((l ++ [x]).length : Int) + -1) = (l.length : Int) := by
      simp [List.length_append]
    rw [if_pos (by rw [hj]; exact Int.ofNat_nonneg _), hj]
    have ht : ((l.length : Int)).toNat = l.length := Int.toNat_ofNat _
    rw [ht, List.get?_eq_getElem?, List.getElem?_concat_length]
  · intro h1 h2
    rw [pyIndex, if_neg (by omega : ¬ (0:Int) ≤ ci),
      if_neg (by omega : ¬ (0:Int) ≤ (row.length : Int) + ci)]
  · intro hc hmem
    have hneg : ((c.toUpper.toNat : Int) - 65) < 0 := by
      have : (c.toUpper.toNat : Int) < 65 := by exact_mod_cast hc
      omega
    rw [spreadsheetsSearchCore]
    simp only [show colOrd ⟨[c]⟩ = .ok ((c.toUpper.toNat : Int) - 65) from rfl,
      searchLoop_err_of_empty_row _ _ _ hneg 1 values hmem]

/-- Witness for `negative_index_amended`: selector "@" on rows containing
an empty row ends in an uncaught IndexError. -/
theorem negative_index_amended_witness :
    spreadsheetsSearchCore [["x"], []] "x" (some "@") false
      = .error .indexErr :=
  (negative_index_amended '@' [] "" [] (-1) [["x"], []] "x"
    false).2.2.2.2 (by decide) (by decide)
